import Mathlib

/-!
Verification of the region-growing segmentation engine of Past2Polygon
(`src/segmentation/main.cpp`).

The C++ source is shallowly embedded: the pixel buffer, the visited set and
the scratch component mask are row-major `List`s indexed by `y * width + x`,
exactly as in the source; machine floats (`double k`, heatmap floats,
probability accumulation) are modelled as rationals; C++ `int` coordinates
are `Int`.  The iterative flood fill (`floodFillIterative`) is a step
function on an explicit stack state iterated with sufficient fuel; a
termination theorem shows the fuel bound makes the iteration reach the
empty stack, so the fuel-based definition coincides with the C++ `while`
loop.

A faithfully modelled detail: in the C++ source `startColor` is a
`const Color&` bound by the caller to `image[y*width+x]`, i.e. to the seed
pixel of the fill.  Once the seed pixel is recolored (line 78 of the
source), that reference observes the new fill color, so with
`adjacentCompare = false` every later similarity test compares against the
random fill color.  The embedding keeps the seed index and reads the
comparison color through the current image, reproducing this aliasing.
-/

set_option maxRecDepth 100000

namespace Past2Polygon

/-- RGB color triple of byte values, `struct Color` of the source. -/
structure Color where
  r : Nat
  g : Nat
  b : Nat
deriving DecidableEq

/-- `struct Config` of the source: similarity threshold `k`, connectivity,
metric and compare-mode flags, minimum component size, static threshold. -/
structure Config where
  k : ℚ
  use8Way : Bool
  euclidif : Bool
  adj : Bool
  minComponentSize : Int
  buildingBlockTreshold : ℚ
deriving DecidableEq

/-- Manhattan color difference `|Δr| + |Δg| + |Δb|` (the `else` branch of
`colorDifference`); channel subtraction happens after promotion to `int`. -/
def colorDifferenceM (c1 c2 : Color) : Int :=
  |(c1.r : Int) - c2.r| + |(c1.g : Int) - c2.g| + |(c1.b : Int) - c2.b|

/-- Sum of squared channel differences, the radicand of the Euclidean branch
of `colorDifference`. -/
def colorDifferenceSq (c1 c2 : Color) : Int :=
  ((c1.r : Int) - c2.r) ^ 2 + ((c1.g : Int) - c2.g) ^ 2 + ((c1.b : Int) - c2.b) ^ 2

/-- The inclusion test `colorDifference(c1, c2, euclidif) <= k` of the
source.  In the Euclidean branch the source compares `sqrt(s) <= k`, which
for the nonnegative radicand `s` is equivalent to `0 ≤ k ∧ s ≤ k²`; the
Manhattan branch is compared directly. -/
def colorSimilar (c1 c2 : Color) (euclidif : Bool) (k : ℚ) : Bool :=
  if euclidif then
    decide (0 ≤ k) && decide ((colorDifferenceSq c1 c2 : ℚ) ≤ k ^ 2)
  else
    decide ((colorDifferenceM c1 c2 : ℚ) ≤ k)

/-- Row-major index `y * width + x` used by every buffer access of the
source (coordinates are nonnegative whenever this is used). -/
def idxOf (width : Nat) (x y : Int) : Nat :=
  y.toNat * width + x.toNat

/-- Bounds test of flood-fill line 61:
`x < 0 || x >= width || y < 0 || y >= height`, negated. -/
def inBoundsB (width height : Nat) (x y : Int) : Bool :=
  decide (0 ≤ x) && decide (x < (width : Int)) &&
  decide (0 ≤ y) && decide (y < (height : Int))

/-- Number of `false` entries of a boolean buffer; used as part of the
termination measure of the flood fill. -/
def falseCount (l : List Bool) : Nat :=
  l.countP (fun b => !b)

/-- Number of `true` entries of a boolean buffer. -/
def trueCount (l : List Bool) : Nat :=
  l.countP (fun b => b)

/-- State of the iterative flood fill: the shared buffers, the running
bounding box and size (the `currentComponent*` globals of the source), the
explicit stack of `(x, y, proposing neighbor color)` entries, and a ghost
buffer `recolored` marking exactly the pixels overwritten with the fill
color (source line 78). -/
structure FFState where
  image : List Color
  visited : List Bool
  bigMask : List Bool
  recolored : List Bool
  xmin : Int
  xmax : Int
  ymin : Int
  ymax : Int
  size : Nat
  stack : List (Int × Int × Color)
deriving DecidableEq

/-- One iteration of the `while (!stack.empty())` loop of
`floodFillIterative` (source lines 55–92); the identity on an empty stack.
`seedIdx` is the index the C++ `startColor` reference is bound to: the
comparison color for `adj = false` is read through the current image, which
reproduces the aliasing of the reference with the recolored seed pixel.
The list models the stack with its head as the top, so the entries pushed
by the source appear here in reverse push order. -/
def ffStep (width height : Nat) (k : ℚ) (use8Way adj euclidif : Bool)
    (seedIdx : Nat) (newColor : Color) (s : FFState) : FFState :=
  match s.stack with
  | [] => s
  | (x, y, neighborColor) :: rest =>
    if !inBoundsB width height x y || s.visited.getD (idxOf width x y) false then
      { s with stack := rest }
    else
      let i := idxOf width x y
      let currentColor := s.image.getD i ⟨0, 0, 0⟩
      let compareColor := if adj then neighborColor else s.image.getD seedIdx ⟨0, 0, 0⟩
      let base : FFState :=
        { s with
          xmin := min s.xmin x
          xmax := max s.xmax x
          ymin := min s.ymin y
          ymax := max s.ymax y
          size := s.size + 1
          visited := s.visited.set i true
          bigMask := s.bigMask.set i true
          stack := rest }
      if colorSimilar currentColor compareColor euclidif k then
        { base with
          image := base.image.set i newColor
          recolored := base.recolored.set i true
          stack :=
            (if use8Way then
              [(x - 1, y - 1, currentColor), (x - 1, y + 1, currentColor),
               (x + 1, y - 1, currentColor), (x + 1, y + 1, currentColor)]
            else []) ++
            [(x, y - 1, currentColor), (x, y + 1, currentColor),
             (x - 1, y, currentColor), (x + 1, y, currentColor)] ++ rest }
      else base

/-- `n`-fold iteration of `ffStep`. -/
def floodSteps (width height : Nat) (k : ℚ) (use8Way adj euclidif : Bool)
    (seedIdx : Nat) (newColor : Color) : Nat → FFState → FFState
  | 0, s => s
  | n + 1, s =>
      floodSteps width height k use8Way adj euclidif seedIdx newColor n
        (ffStep width height k use8Way adj euclidif seedIdx newColor s)

/-- Termination measure of the flood-fill loop: every iteration pops one
entry and pushes at most eight, and pushes only happen when a previously
unvisited pixel is marked visited. -/
def ffMeasure (s : FFState) : Nat :=
  s.stack.length + 9 * falseCount s.visited

/-- The iterative flood fill of source lines 49–93: the loop body iterated
until the stack empties.  `ffMeasure` iterations always suffice (theorem
`floodFillIterative_terminates`), so this equals the result of the C++
`while` loop. -/
def floodFillIterative (width height : Nat) (k : ℚ) (use8Way adj euclidif : Bool)
    (seedIdx : Nat) (newColor : Color) (s : FFState) : FFState :=
  floodSteps width height k use8Way adj euclidif seedIdx newColor (ffMeasure s) s

/-- The inclusive integer range `lo, lo+1, …, hi` (empty when `hi < lo`),
modelling a C++ `for (v = lo; v <= hi; v++)` loop header. -/
def intRange (lo hi : Int) : List Int :=
  (List.range (hi + 1 - lo).toNat).map (fun i => lo + (i : Int))

/-- Bounding box and size of one flood-fill invocation, i.e. the values of
the `currentComponent*` globals when the fill returns. -/
structure Region where
  xMin : Int
  xMax : Int
  yMin : Int
  yMax : Int
  size : Nat
deriving DecidableEq

/-- Bounding-box area `componentWidth * componentHeight` as computed by the
source from the `currentComponent*` globals. -/
def Region.area (r : Region) : Int :=
  (r.xMax - r.xMin + 1) * (r.yMax - r.yMin + 1)

/-- The discard test of source lines 493–494:
`size < minComponentSize || size < (compWidth * compHeight) / 3`.  A region
is kept when this is `false`. -/
def keepRegion (minComponentSize : Int) (r : Region) : Bool :=
  !(decide ((r.size : Int) < minComponentSize) || decide ((r.size : Int) < r.area / 3))

/-- The cell sequence of the mask-clearing loops (source lines 495–499 and
532–536): `cx` outer from `xMin` to `xMax`, `cy` inner from `yMin` to
`yMax`. -/
def clearTraversal (r : Region) : List (Int × Int) :=
  (intRange r.xMin r.xMax).flatMap (fun cx => (intRange r.yMin r.yMax).map (fun cy => (cx, cy)))

/-- Clearing of the scratch mask over a region's bounding box, performed
by the source both for discarded and for kept regions. -/
def clearBox (width : Nat) (r : Region) (mask : List Bool) : List Bool :=
  (clearTraversal r).foldl (fun m c => m.set (idxOf width c.1 c.2) false) mask

/-- The cell sequence of the mask-extraction loop (source lines 507–516):
`cy` outer from `yMin` to `yMax`, `cx` inner from `xMin` to `xMax`. -/
def boxTraversal (r : Region) : List (Int × Int) :=
  (intRange r.yMin r.yMax).flatMap (fun cy => (intRange r.xMin r.xMax).map (fun cx => (cx, cy)))

/-- Accumulator of the extraction loop: the bounding-box-local mask being
built, the running heatmap total and the masked pixel count. -/
structure ExtractAcc where
  mask : List Bool
  total : ℚ
  count : Nat
deriving DecidableEq

/-- The extraction loop of source lines 504–516: scans the bounding box in
row-major order; every scratch-mask pixel is copied into the local mask and
its heatmap value accumulated. -/
def extractComponent (width : Nat) (r : Region) (bigMask : List Bool)
    (heatmap : List ℚ) : ExtractAcc :=
  let compW := (r.xMax - r.xMin + 1).toNat
  let compH := (r.yMax - r.yMin + 1).toNat
  (boxTraversal r).foldl
    (fun acc c =>
      if bigMask.getD (idxOf width c.1 c.2) false then
        { mask := acc.mask.set ((c.2 - r.yMin).toNat * compW + (c.1 - r.xMin).toNat) true
          total := acc.total + heatmap.getD (idxOf width c.1 c.2) 0
          count := acc.count + 1 }
      else acc)
    { mask := List.replicate (compW * compH) false, total := 0, count := 0 }

/-- The average probability of source line 517:
`(pixelCount > 0) ? (totalProbability / pixelCount) : 0.0f`. -/
def componentAvgProbability (width : Nat) (r : Region) (bigMask : List Bool)
    (heatmap : List ℚ) : ℚ :=
  let ex := extractComponent width r bigMask heatmap
  if 0 < ex.count then ex.total / (ex.count : ℚ) else 0

/-- The bounding-box cells whose scratch-mask entry is set, in the order
the extraction loop of `extractComponent` meets them. -/
def maskedCells (width : Nat) (r : Region) (bigMask : List Bool) : List (Int × Int) :=
  (boxTraversal r).filter (fun c => bigMask.getD (idxOf width c.1 c.2) false)

/-- `struct ComponentData` of `processImage` (source lines 450–459). -/
structure ComponentData where
  id : Nat
  xMin : Int
  xMax : Int
  yMin : Int
  yMax : Int
  size : Nat
  avgProbability : ℚ
  mask : List Bool
deriving DecidableEq

/-- The region a component record was created from. -/
def ComponentData.toRegion (c : ComponentData) : Region :=
  ⟨c.xMin, c.xMax, c.yMin, c.yMax, c.size⟩

/-- State of the raster scan of `processImage` (source lines 473–540).
`regions` is a ghost trace recording the bounding box and size reported by
every flood-fill invocation, kept or discarded; `recolored` is the ghost
recoloring trace threaded through the fills. -/
structure ScanState where
  image : List Color
  visited : List Bool
  bigMask : List Bool
  recolored : List Bool
  components : List ComponentData
  regions : List Region
deriving DecidableEq

/-- The body of the raster scan at pixel index `p` (coordinates
`x = p % width`, `y = p / width`, so increasing `p` is exactly the
`y`-outer/`x`-inner order of the source).  An already visited pixel is
skipped; otherwise the globals are reset (`xmin = width`, `xmax = 0`,
`ymin = height`, `ymax = 0`, `size = 0`, source lines 481–485), the flood
fill runs from the seed, and the region is either discarded (mask cleared,
no record) or extracted into a `ComponentData` (mask cleared afterwards).
The fill color for the `n`-th invocation is `colors n`. -/
def scanStep (width height : Nat) (cfg : Config) (heatmap : List ℚ)
    (colors : Nat → Color) (st : ScanState) (p : Nat) : ScanState :=
  if st.visited.getD p false then st
  else
    let x : Int := (p % width : Nat)
    let y : Int := (p / width : Nat)
    let newColor := colors st.regions.length
    let s0 : FFState :=
      { image := st.image, visited := st.visited, bigMask := st.bigMask
        recolored := st.recolored
        xmin := (width : Int), xmax := 0, ymin := (height : Int), ymax := 0
        size := 0
        stack := [(x, y, st.image.getD p ⟨0, 0, 0⟩)] }
    let s1 := floodFillIterative width height cfg.k cfg.use8Way cfg.adj cfg.euclidif p newColor s0
    let r : Region := ⟨s1.xmin, s1.xmax, s1.ymin, s1.ymax, s1.size⟩
    if keepRegion cfg.minComponentSize r then
      let avg := componentAvgProbability width r s1.bigMask heatmap
      let ex := extractComponent width r s1.bigMask heatmap
      let comp : ComponentData :=
        ⟨st.components.length + 1, r.xMin, r.xMax, r.yMin, r.yMax, r.size, avg, ex.mask⟩
      { image := s1.image, visited := s1.visited
        bigMask := clearBox width r s1.bigMask
        recolored := s1.recolored
        components := st.components ++ [comp]
        regions := st.regions ++ [r] }
    else
      { image := s1.image, visited := s1.visited
        bigMask := clearBox width r s1.bigMask
        recolored := s1.recolored
        components := st.components
        regions := st.regions ++ [r] }

/-- The scan state before the first pixel: all-false visited and scratch
buffers (source lines 463–464), no components. -/
def initScanState (width height : Nat) (image : List Color) : ScanState :=
  { image := image
    visited := List.replicate (width * height) false
    bigMask := List.replicate (width * height) false
    recolored := List.replicate (width * height) false
    components := []
    regions := [] }

/-- The raster scan stopped after the first `n` pixel indices. -/
def scanPrefix (width height : Nat) (cfg : Config) (image : List Color)
    (heatmap : List ℚ) (colors : Nat → Color) (n : Nat) : ScanState :=
  (List.range n).foldl (scanStep width height cfg heatmap colors)
    (initScanState width height image)

/-- The whole raster scan: `scanStep` over every pixel index in raster
order, starting from all-false visited and scratch buffers. -/
def processScan (width height : Nat) (cfg : Config) (image : List Color)
    (heatmap : List ℚ) (colors : Nat → Color) : ScanState :=
  scanPrefix width height cfg image heatmap colors (width * height)

/-- The probability threshold of `processImage` (source lines 420–425): the
per-pixel heatmap values are sorted ascending and the value at index
`(size_t)(0.8 * size)` — the rational floor, for every realistic size —
clamped to the last index, is selected.  (For an empty heatmap the C++
index underflows and the access is out of range; the model returns the
default `0`.) -/
def probabilityThreshold80 (heatmap : List ℚ) : ℚ :=
  let sorted := heatmap.insertionSort (· ≤ ·)
  let i := 4 * heatmap.length / 5
  let i := if heatmap.length ≤ i then heatmap.length - 1 else i
  sorted.getD i 0

/-- The size threshold of `processImage` (source lines 544–554): `0` for an
empty component population, otherwise the component sizes are sorted
ascending and the value at index `(int)(0.9 * size)` — the rational floor —
clamped to the last index, is selected. -/
def sizeThreshold90 (sizes : List Nat) : Nat :=
  if sizes.isEmpty then 0
  else
    let sorted := sizes.insertionSort (· ≤ ·)
    let i := 9 * sizes.length / 10
    let i := if sizes.length ≤ i then sizes.length - 1 else i
    sorted.getD i 0

/-- The classification of source line 572: a component is a building block
iff `avgProbability >= probabilityThreshold80 && size <= sizeThreshold80`. -/
def classifyComponents (probThr : ℚ) (sizeThr : Nat) (comps : List ComponentData) :
    List (ComponentData × Bool) :=
  comps.map (fun c => (c, decide (probThr ≤ c.avgProbability) && decide (c.size ≤ sizeThr)))

/-- Observable result of `processImage` on one in-memory image. -/
structure ProcessResult where
  finalImage : List Color
  visited : List Bool
  recolored : List Bool
  components : List ComponentData
  regions : List Region
  probThreshold : ℚ
  sizeThreshold : Nat
  classified : List (ComponentData × Bool)
deriving DecidableEq

/-- The single-image path `processImage` (source lines 389–620) after a
successful heatmap read: percentile threshold over the heatmap pixels,
raster-scan segmentation, size threshold over the kept components'
sizes, and per-component classification. -/
def processImageModel (width height : Nat) (cfg : Config) (image : List Color)
    (heatmap : List ℚ) (colors : Nat → Color) : ProcessResult :=
  let probThr := probabilityThreshold80 heatmap
  let st := processScan width height cfg image heatmap colors
  let sizeThr := sizeThreshold90 (st.components.map (·.size))
  { finalImage := st.image
    visited := st.visited
    recolored := st.recolored
    components := st.components
    regions := st.regions
    probThreshold := probThr
    sizeThreshold := sizeThr
    classified := classifyComponents probThr sizeThr st.components }

/-- The heatmap read of source lines 403–416: `heatmapFile.read` requests
exactly `width*height` floats and `istream::read` sets the failure bit iff
fewer characters than requested are available, so the read fails iff the
file holds fewer than `n` floats; any further content is left unread and
ignored. -/
def readHeatmap (file : List ℚ) (n : Nat) : Option (List ℚ) :=
  if file.length < n then none else some (file.take n)

/-- `⌈0.8 × n⌉` for a natural `n`, written with natural arithmetic
(`⌈4n/5⌉ = ⌊(4n + 4)/5⌋`; lemma `ceilRank80_eq` certifies the identity). -/
def ceilRank80 (n : Nat) : Nat :=
  (4 * n + 4) / 5

/-- `⌈0.9 × n⌉` for a natural `n`, written with natural arithmetic
(`⌈9n/10⌉ = ⌊(9n + 9)/10⌋`; lemma `ceilRank90_eq` certifies the identity). -/
def ceilRank90 (n : Nat) : Nat :=
  (9 * n + 9) / 10

/-- Modelled from the spec (§4.5, not from the source; the source has no
such computation): the probability threshold as the spec words it — "the
value at rank `⌈0.8 × N⌉` (clamped to the last index) of all components'
average probabilities sorted ascending", ranks read as 0-based indices as
in the spec's §8 example. -/
def specProbThreshold (avgProbs : List ℚ) : ℚ :=
  (avgProbs.insertionSort (· ≤ ·)).getD
    (min (ceilRank80 avgProbs.length) (avgProbs.length - 1)) 0

/-- Modelled from the spec (§4.5, not from the source): the size threshold
as the spec words it — "the value at rank `⌈0.9 × N⌉` (clamped) of all
components' pixel counts sorted ascending". -/
def specSizeThreshold (sizes : List Nat) : Nat :=
  (sizes.insertionSort (· ≤ ·)).getD
    (min (ceilRank90 sizes.length) (sizes.length - 1)) 0

/-- Invariant of the flood-fill state tying the `currentComponent*`
globals to the scratch mask: the mask marks only visited pixels, the size
counter counts exactly the marked pixels, every marked pixel lies inside
the running bounding box, and each of the four bounds is either still at
its initial value (only while nothing is marked) or attained by a marked
pixel. -/
structure FillInv (W H : Nat) (s : FFState) : Prop where
  hvl : s.visited.length = W * H
  hml : s.bigMask.length = W * H
  hmv : ∀ j, s.bigMask.getD j false = true → s.visited.getD j false = true
  hsz : s.size = trueCount s.bigMask
  hbox : ∀ j, s.bigMask.getD j false = true →
    j < W * H ∧ s.xmin ≤ ((j % W : Nat) : Int) ∧ ((j % W : Nat) : Int) ≤ s.xmax ∧
      s.ymin ≤ ((j / W : Nat) : Int) ∧ ((j / W : Nat) : Int) ≤ s.ymax
  hach : (s.size = 0 ∧ s.xmin = (W : Int) ∧ s.xmax = 0 ∧ s.ymin = (H : Int) ∧ s.ymax = 0) ∨
    ((∃ j, s.bigMask.getD j false = true ∧ ((j % W : Nat) : Int) = s.xmin) ∧
     (∃ j, s.bigMask.getD j false = true ∧ ((j % W : Nat) : Int) = s.xmax) ∧
     (∃ j, s.bigMask.getD j false = true ∧ ((j / W : Nat) : Int) = s.ymin) ∧
     (∃ j, s.bigMask.getD j false = true ∧ ((j / W : Nat) : Int) = s.ymax))

/-! ### Concrete example inputs

`exImage2` is the 2×1 image of the spec's §8 example: seed pixel `(0,0)`
color `(10,10,10)`, neighbor `(1,0)` color `(12,11,9)`, Manhattan metric,
`k = 2` (difference 4 > 2), with chained comparison, `minComponentSize = 1`
and heatmap values `[0, 1]`. -/

/-- Configuration of the 2×1 example run. -/
def exCfg : Config := ⟨2, false, false, true, 1, 0⟩

/-- Pixels of the 2×1 example run. -/
def exImage2 : List Color := [⟨10, 10, 10⟩, ⟨12, 11, 9⟩]

/-- Heatmap of the 2×1 example run. -/
def exHeat2 : List ℚ := [0, 1]

/-- A deterministic stand-in for the random fill-color generator. -/
def exColors : Nat → Color := fun _ => ⟨200, 200, 200⟩

/-- Result of the single-image path on the 2×1 example. -/
def exRun2 : ProcessResult := processImageModel 2 1 exCfg exImage2 exHeat2 exColors

/-- Configuration of the 23×1 example run: `k = 0`, Manhattan, chained
comparison, `minComponentSize = 1`. -/
def exCfg23 : Config := ⟨0, false, false, true, 1, 0⟩

/-- Pixels of the 23×1 example run: ten alternating pairs followed by a run
of three equal pixels, producing eleven regions of sizes
`[2,2,2,2,2,2,2,2,2,2,3]`. -/
def exImage23 : List Color :=
  [⟨0,0,0⟩, ⟨100,100,100⟩, ⟨0,0,0⟩, ⟨100,100,100⟩, ⟨0,0,0⟩, ⟨100,100,100⟩,
   ⟨0,0,0⟩, ⟨100,100,100⟩, ⟨0,0,0⟩, ⟨100,100,100⟩, ⟨0,0,0⟩, ⟨100,100,100⟩,
   ⟨0,0,0⟩, ⟨100,100,100⟩, ⟨0,0,0⟩, ⟨100,100,100⟩, ⟨0,0,0⟩, ⟨100,100,100⟩,
   ⟨0,0,0⟩, ⟨100,100,100⟩, ⟨50,50,50⟩, ⟨50,50,50⟩, ⟨50,50,50⟩]

/-- Constant heatmap of the 23×1 example run. -/
def exHeat23 : List ℚ := List.replicate 23 (1 / 2)

/-- Result of the single-image path on the 23×1 example. -/
def exRun23 : ProcessResult := processImageModel 23 1 exCfg23 exImage23 exHeat23 exColors

/-- Helper: `⌈(a : ℚ)/b⌉₊ = ⌊(a + b - 1)/b⌋` for natural `a` and positive
natural `b`. -/
theorem nat_ceil_div (a b : Nat) (hb : 0 < b) :
    (a + b - 1) / b = ⌈(a : ℚ) / b⌉₊ := by
  obtain ⟨m, hm⟩ : ∃ m, (a + b - 1) / b = m := ⟨_, rfl⟩
  have hdm := Nat.div_add_mod (a + b - 1) b
  rw [hm] at hdm
  have hmod := Nat.mod_lt (a + b - 1) hb
  have hub : a ≤ b * m := by omega
  have hbq : (0 : ℚ) < b := by exact_mod_cast hb
  rw [hm]
  apply le_antisymm
  · rcases Nat.eq_zero_or_pos m with h0 | hpos
    · simp [h0]
    · obtain ⟨m', hm'⟩ : ∃ m', m = m' + 1 := ⟨m - 1, by omega⟩
      have hms : b * m = b * m' + b := by rw [hm', Nat.mul_succ]
      have hlt : b * m' < a := by omega
      have h1 : ((m' : ℚ)) < (a : ℚ) / b := by
        rw [lt_div_iff₀ hbq]
        calc (m' : ℚ) * b = ((b * m' : Nat) : ℚ) := by push_cast; ring
          _ < a := by exact_mod_cast hlt
      have := Nat.lt_ceil.mpr h1
      omega
  · rw [Nat.ceil_le, div_le_iff₀ hbq]
    calc (a : ℚ) ≤ ((b * m : Nat) : ℚ) := by exact_mod_cast hub
      _ = (m : ℚ) * b := by push_cast; ring

/-- `ceilRank80` is the ceiling the spec's words denote. -/
theorem ceilRank80_eq (n : Nat) : ceilRank80 n = ⌈(4 / 5 : ℚ) * n⌉₊ := by
  have h : ((4 / 5 : ℚ) * n) = ((4 * n : Nat) : ℚ) / ((5 : Nat) : ℚ) := by
    push_cast
    ring
  rw [ceilRank80, h, ← nat_ceil_div (4 * n) 5 (by norm_num)]
  omega

/-- `ceilRank90` is the ceiling the spec's words denote. -/
theorem ceilRank90_eq (n : Nat) : ceilRank90 n = ⌈(9 / 10 : ℚ) * n⌉₊ := by
  have h : ((9 / 10 : ℚ) * n) = ((9 * n : Nat) : ℚ) / ((10 : Nat) : ℚ) := by
    push_cast
    ring
  rw [ceilRank90, h, ← nat_ceil_div (9 * n) 10 (by norm_num)]
  omega

/-- Claim C1, counterexample.  On the 2×1 example the threshold actually
used by the classifier is the 80th percentile of the two per-pixel heatmap
values `[0, 1]`, namely `1`; the claim's value — the 80th percentile of the
single component's average probability population `[1/2]` — is `1/2`.  The
two differ, so the claim is false at this input. -/
theorem probThreshold_ne_component_percentile :
    exRun2.probThreshold ≠ specProbThreshold (exRun2.components.map (·.avgProbability)) := by
  with_unfolding_all decide

/-- Claim C2, counterexample.  On the 23×1 example there are eleven kept
components with sizes `[2,…,2,3]`; the claim's size threshold (rank
`⌈0.9·11⌉ = 10`, clamped) is `3`, and the eleventh component has average
probability `1/2 ≥` the probability threshold `1/2` and size `3 ≤ 3`, yet
the code classifies it as not a building block (the source's index is
`(int)(0.9·11) = 9`, giving threshold `2`). -/
theorem classification_ne_ceil_rank_rule :
    (exRun23.classified.getD 10 ⟨⟨0, 0, 0, 0, 0, 0, 0, []⟩, true⟩).2 = false ∧
    exRun23.probThreshold ≤
      (exRun23.classified.getD 10 ⟨⟨0, 0, 0, 0, 0, 0, 0, []⟩, true⟩).1.avgProbability ∧
    (exRun23.classified.getD 10 ⟨⟨0, 0, 0, 0, 0, 0, 0, []⟩, true⟩).1.size ≤
      specSizeThreshold (exRun23.components.map (·.size)) := by
  with_unfolding_all decide

/-- Claim C5, counterexample.  On the 2×1 example the single finalized
component has bounding box `x ∈ [0, 1]`, but the only recolored (included)
pixel is pixel `0` (the neighbor failed the similarity test and was never
recolored), so the tight box of the included pixels has `xMax = 0 ≠ 1`:
the bounding box is not the tight box of the included pixels. -/
theorem boundingBox_not_tight_over_recolored :
    exRun2.components.map (·.xMax) = [1] ∧ exRun2.recolored = [true, false] := by
  with_unfolding_all decide

/-- Claim C6, counterexample.  On the 2×1 example (the spec's §8 example
with `k = 2`) the neighbor `(1,0)` fails the similarity test, but the whole
scan performs exactly one flood-fill invocation whose reported size is 2:
the failing pixel is counted in the first region and, being marked visited,
never seeds a region of its own. -/
theorem failed_pixel_never_seeds :
    exRun2.regions = [⟨0, 1, 0, 0, 2⟩] := by
  with_unfolding_all decide

/-- Claim C7: the source contradicts the spec's determinism-modulo-
randomness property.  With `adjacentCompare = false` the comparison color
is read through the `startColor` reference, which aliases the recolored
seed pixel, so the random fill color takes part in every similarity test
after the seed: on the 3×1 image `[(0,0,0), (5,5,5), (5,5,5)]` with
`k = 0`, fill color `(9,9,9)` yields two regions of sizes `[2, 1]` while
fill color `(5,5,5)` yields a single region of size 3. -/
theorem fillColor_changes_segmentation :
    (processImageModel 3 1 ⟨0, false, false, false, 1, 0⟩
        [⟨0,0,0⟩, ⟨5,5,5⟩, ⟨5,5,5⟩] [0, 0, 0] (fun _ => ⟨9,9,9⟩)).regions ≠
    (processImageModel 3 1 ⟨0, false, false, false, 1, 0⟩
        [⟨0,0,0⟩, ⟨5,5,5⟩, ⟨5,5,5⟩] [0, 0, 0] (fun _ => ⟨5,5,5⟩)).regions := by
  with_unfolding_all decide

/-- Claim C9, counterexample.  A heatmap file holding three floats is
accepted by the read for a `2×1` image (which needs only two): the extra
value is silently ignored, so a too-long heatmap file is not a fatal input
error. -/
theorem readHeatmap_accepts_long_file :
    readHeatmap [0, 0, 0] 2 = some [0, 0] ∧ ([(0 : ℚ), 0, 0]).length ≠ 2 := by
  decide

/-! ### Generic buffer lemmas -/

theorem getD_set_ne (l : List Bool) (i j : Nat) (b : Bool) (h : i ≠ j) :
    (l.set i b).getD j false = l.getD j false := by
  simp [List.getD_eq_getElem?_getD, List.getElem?_set_ne h]

theorem getD_set_self (l : List Bool) (i : Nat) (b : Bool) (h : i < l.length) :
    (l.set i b).getD i false = b := by
  simp [List.getD_eq_getElem?_getD, List.getElem?_set_self, h]

theorem getD_true_lt_length (l : List Bool) (j : Nat) (h : l.getD j false = true) :
    j < l.length := by
  by_contra hc
  push_neg at hc
  rw [List.getD_eq_getElem?_getD, List.getElem?_eq_none hc] at h
  simp at h

theorem getD_set_true_mono (l : List Bool) (i j : Nat) (h : l.getD j false = true) :
    (l.set i true).getD j false = true := by
  rcases eq_or_ne i j with rfl | hne
  · rw [getD_set_self _ _ _ (getD_true_lt_length l i h)]
  · rw [getD_set_ne _ _ _ _ hne]
    exact h

theorem falseCount_set_true (l : List Bool) (i : Nat) (hi : i < l.length)
    (h : l.getD i false = false) :
    falseCount (l.set i true) + 1 = falseCount l := by
  induction l generalizing i with
  | nil => simp at hi
  | cons a t ih =>
    cases i with
    | zero =>
      simp only [List.getD_cons_zero] at h
      subst h
      simp [falseCount, List.set, List.countP_cons]
    | succ i' =>
      simp only [List.getD_cons_succ] at h
      have hlen : i' < t.length := by
        simpa using hi
      have := ih i' hlen h
      simp only [falseCount, List.set, List.countP_cons] at *
      omega

theorem trueCount_set_true (l : List Bool) (i : Nat) (hi : i < l.length)
    (h : l.getD i false = false) :
    trueCount (l.set i true) = trueCount l + 1 := by
  induction l generalizing i with
  | nil => simp at hi
  | cons a t ih =>
    cases i with
    | zero =>
      simp only [List.getD_cons_zero] at h
      subst h
      simp [trueCount, List.set, List.countP_cons]
    | succ i' =>
      simp only [List.getD_cons_succ] at h
      have hlen : i' < t.length := by
        simpa using hi
      have := ih i' hlen h
      simp only [trueCount, List.set, List.countP_cons] at *
      omega

theorem falseCount_eq_zero (l : List Bool) (h : ∀ i, i < l.length → l.getD i false = true) :
    falseCount l = 0 := by
  induction l with
  | nil => rfl
  | cons a t ih =>
    have ha := h 0 (by simp)
    simp only [List.getD_cons_zero] at ha
    have ht : ∀ i, i < t.length → t.getD i false = true := by
      intro i hi
      have := h (i + 1) (by simp; omega)
      simpa using this
    have hz := ih ht
    simp only [falseCount] at hz
    simp [falseCount, List.countP_cons, ha, hz]

/-! ### Coordinate arithmetic -/

theorem inBoundsB_iff (W H : Nat) (x y : Int) :
    inBoundsB W H x y = true ↔ 0 ≤ x ∧ x < (W : Int) ∧ 0 ≤ y ∧ y < (H : Int) := by
  simp [inBoundsB, and_assoc]

theorem idxOf_lt (W H : Nat) (x y : Int) (hb : inBoundsB W H x y = true) :
    idxOf W x y < W * H := by
  rw [inBoundsB_iff] at hb
  obtain ⟨hx0, hxW, hy0, hyH⟩ := hb
  have hx : x.toNat < W := by omega
  have hy : y.toNat < H := by omega
  calc idxOf W x y = y.toNat * W + x.toNat := rfl
    _ < (y.toNat + 1) * W := by
        rw [Nat.succ_mul]
        omega
    _ ≤ H * W := Nat.mul_le_mul_right W hy
    _ = W * H := Nat.mul_comm H W

theorem idxOf_mod (W H : Nat) (x y : Int) (hb : inBoundsB W H x y = true) :
    ((idxOf W x y % W : Nat) : Int) = x := by
  rw [inBoundsB_iff] at hb
  obtain ⟨hx0, hxW, hy0, hyH⟩ := hb
  have hx : x.toNat < W := by omega
  have h1 : idxOf W x y = W * y.toNat + x.toNat := by
    rw [idxOf, Nat.mul_comm]
  rw [h1, Nat.mul_add_mod, Nat.mod_eq_of_lt hx]
  omega

theorem idxOf_div (W H : Nat) (x y : Int) (hb : inBoundsB W H x y = true) :
    ((idxOf W x y / W : Nat) : Int) = y := by
  rw [inBoundsB_iff] at hb
  obtain ⟨hx0, hxW, hy0, hyH⟩ := hb
  have hx : x.toNat < W := by omega
  have hW : 0 < W := by omega
  have h1 : idxOf W x y = W * y.toNat + x.toNat := by
    rw [idxOf, Nat.mul_comm]
  rw [h1, Nat.mul_add_div hW, Nat.div_eq_of_lt hx]
  omega

/-! ### Flood-fill step characterization -/

theorem ffStep_nil (W H : Nat) (k : ℚ) (u a e : Bool) (si : Nat) (nc : Color)
    (s : FFState) (hs : s.stack = []) :
    ffStep W H k u a e si nc s = s := by
  rw [ffStep, hs]

theorem ffStep_skip (W H : Nat) (k : ℚ) (u a e : Bool) (si : Nat) (nc : Color)
    (s : FFState) (x y : Int) (c : Color) (rest : List (Int × Int × Color))
    (hs : s.stack = (x, y, c) :: rest)
    (hcond : (!inBoundsB W H x y || s.visited.getD (idxOf W x y) false) = true) :
    ffStep W H k u a e si nc s = { s with stack := rest } := by
  rw [ffStep, hs]
  simp only [hcond, if_pos]

theorem ffStep_core (W H : Nat) (k : ℚ) (u a e : Bool) (si : Nat) (nc : Color)
    (s : FFState) (x y : Int) (c : Color) (rest : List (Int × Int × Color))
    (hs : s.stack = (x, y, c) :: rest)
    (hb : inBoundsB W H x y = true)
    (hv : s.visited.getD (idxOf W x y) false = false) :
    (ffStep W H k u a e si nc s).visited = s.visited.set (idxOf W x y) true ∧
    (ffStep W H k u a e si nc s).bigMask = s.bigMask.set (idxOf W x y) true ∧
    (ffStep W H k u a e si nc s).size = s.size + 1 ∧
    (ffStep W H k u a e si nc s).xmin = min s.xmin x ∧
    (ffStep W H k u a e si nc s).xmax = max s.xmax x ∧
    (ffStep W H k u a e si nc s).ymin = min s.ymin y ∧
    (ffStep W H k u a e si nc s).ymax = max s.ymax y ∧
    ((ffStep W H k u a e si nc s).stack = rest ∨
      ∃ pre, (ffStep W H k u a e si nc s).stack = pre ++ rest ∧ pre.length ≤ 8) := by
  rw [ffStep, hs]
  simp only [hb, hv, Bool.not_true, Bool.false_or, Bool.or_false]
  cases hcs : colorSimilar (s.image.getD (idxOf W x y) ⟨0, 0, 0⟩)
      (if a then c else s.image.getD si ⟨0, 0, 0⟩) e k with
  | false =>
    simp
  | true =>
    refine ⟨rfl, rfl, rfl, rfl, rfl, rfl, rfl, Or.inr ⟨_, rfl, ?_⟩⟩
    cases u <;> simp

theorem ffStep_visited_length (W H : Nat) (k : ℚ) (u a e : Bool) (si : Nat) (nc : Color)
    (s : FFState) :
    (ffStep W H k u a e si nc s).visited.length = s.visited.length := by
  match hs : s.stack with
  | [] => rw [ffStep_nil W H k u a e si nc s hs]
  | (x, y, c) :: rest =>
    cases hcond : (!inBoundsB W H x y || s.visited.getD (idxOf W x y) false) with
    | true => rw [ffStep_skip W H k u a e si nc s x y c rest hs hcond]
    | false =>
      have hb : inBoundsB W H x y = true := by
        cases hbb : inBoundsB W H x y <;> simp [hbb] at hcond ⊢
      have hv : s.visited.getD (idxOf W x y) false = false := by
        cases hgv : s.visited.getD (idxOf W x y) false
        · rfl
        · rw [hb, hgv] at hcond
          simp at hcond
      obtain ⟨h1, -⟩ := ffStep_core W H k u a e si nc s x y c rest hs hb hv
      rw [h1, List.length_set]

theorem ffStep_bigMask_length (W H : Nat) (k : ℚ) (u a e : Bool) (si : Nat) (nc : Color)
    (s : FFState) :
    (ffStep W H k u a e si nc s).bigMask.length = s.bigMask.length := by
  match hs : s.stack with
  | [] => rw [ffStep_nil W H k u a e si nc s hs]
  | (x, y, c) :: rest =>
    cases hcond : (!inBoundsB W H x y || s.visited.getD (idxOf W x y) false) with
    | true => rw [ffStep_skip W H k u a e si nc s x y c rest hs hcond]
    | false =>
      have hb : inBoundsB W H x y = true := by
        cases hbb : inBoundsB W H x y <;> simp [hbb] at hcond ⊢
      have hv : s.visited.getD (idxOf W x y) false = false := by
        cases hgv : s.visited.getD (idxOf W x y) false
        · rfl
        · rw [hb, hgv] at hcond
          simp at hcond
      obtain ⟨-, h2, -⟩ := ffStep_core W H k u a e si nc s x y c rest hs hb hv
      rw [h2, List.length_set]

theorem ffStep_measure_lt (W H : Nat) (k : ℚ) (u a e : Bool) (si : Nat) (nc : Color)
    (s : FFState) (hlen : W * H ≤ s.visited.length) (hne : s.stack ≠ []) :
    ffMeasure (ffStep W H k u a e si nc s) < ffMeasure s := by
  match hs : s.stack with
  | [] => exact absurd hs hne
  | (x, y, c) :: rest =>
    cases hcond : (!inBoundsB W H x y || s.visited.getD (idxOf W x y) false) with
    | true =>
      rw [ffStep_skip W H k u a e si nc s x y c rest hs hcond]
      simp [ffMeasure, hs]
    | false =>
      have hb : inBoundsB W H x y = true := by
        cases hbb : inBoundsB W H x y <;> simp [hbb] at hcond ⊢
      have hv : s.visited.getD (idxOf W x y) false = false := by
        cases hgv : s.visited.getD (idxOf W x y) false
        · rfl
        · rw [hb, hgv] at hcond
          simp at hcond
      obtain ⟨h1, -, -, -, -, -, -, hstk⟩ := ffStep_core W H k u a e si nc s x y c rest hs hb hv
      have hidx : idxOf W x y < s.visited.length :=
        lt_of_lt_of_le (idxOf_lt W H x y hb) hlen
      have hfc := falseCount_set_true s.visited (idxOf W x y) hidx hv
      rcases hstk with h2 | ⟨pre, h2, hpre⟩ <;>
        · rw [ffMeasure, ffMeasure, h1, h2, hs]
          simp only [List.length_append, List.length_cons]
          omega

theorem floodSteps_stack_nil (W H : Nat) (k : ℚ) (u a e : Bool) (si : Nat) (nc : Color)
    (n : Nat) (s : FFState) (hs : s.stack = []) :
    floodSteps W H k u a e si nc n s = s := by
  induction n with
  | zero => rfl
  | succ n ih =>
    rw [floodSteps, ffStep_nil W H k u a e si nc s hs, ih]

theorem floodSteps_reaches_nil (W H : Nat) (k : ℚ) (u a e : Bool) (si : Nat) (nc : Color)
    (n : Nat) (s : FFState) (hn : ffMeasure s ≤ n) (hlen : W * H ≤ s.visited.length) :
    (floodSteps W H k u a e si nc n s).stack = [] := by
  induction n generalizing s with
  | zero =>
    have : s.stack.length = 0 := by
      have := hn
      rw [ffMeasure] at this
      omega
    rw [floodSteps]
    exact List.length_eq_zero.mp this
  | succ n ih =>
    match hs : s.stack with
    | [] =>
      rw [floodSteps_stack_nil W H k u a e si nc (n + 1) s hs]
      exact hs
    | (x, y, c) :: rest =>
      rw [floodSteps]
      apply ih
      · have hlt := ffStep_measure_lt W H k u a e si nc s hlen (by rw [hs]; simp)
        omega
      · rw [ffStep_visited_length]
        exact hlen

/-- Claim C10 (confirmed): the flood fill terminates on every input — the
loop body `ffStep` iterated `ffMeasure s` times (the fuel used by
`floodFillIterative`) always reaches the empty stack, because every
iteration pops one entry and either discards it or newly visits a pixel
while pushing at most eight entries. -/
theorem floodFillIterative_terminates (W H : Nat) (k : ℚ) (u a e : Bool) (si : Nat)
    (nc : Color) (s : FFState) (hlen : W * H ≤ s.visited.length) :
    (floodFillIterative W H k u a e si nc s).stack = [] :=
  floodSteps_reaches_nil W H k u a e si nc (ffMeasure s) s (le_refl _) hlen

/-- Witness for `floodFillIterative_terminates`: a 1×1 image with a fresh
visited buffer and the seed on the stack. -/
theorem floodFillIterative_terminates_witness :
    1 * 1 ≤ ([false] : List Bool).length ∧
    (floodFillIterative 1 1 0 false false false 0 ⟨7, 7, 7⟩
      ⟨[⟨1, 2, 3⟩], [false], [false], [false], 1, 0, 1, 0, 0, [(0, 0, ⟨1, 2, 3⟩)]⟩).stack = [] :=
  ⟨by decide,
    floodFillIterative_terminates 1 1 0 false false false 0 ⟨7, 7, 7⟩
      ⟨[⟨1, 2, 3⟩], [false], [false], [false], 1, 0, 1, 0, 0, [(0, 0, ⟨1, 2, 3⟩)]⟩ (by decide)⟩

/-! ### Flood-fill bookkeeping lemmas -/

theorem floodSteps_visited_length (W H : Nat) (k : ℚ) (u a e : Bool) (si : Nat) (nc : Color)
    (n : Nat) (s : FFState) :
    (floodSteps W H k u a e si nc n s).visited.length = s.visited.length := by
  induction n generalizing s with
  | zero => rfl
  | succ n ih =>
    rw [floodSteps, ih, ffStep_visited_length]

theorem ffStep_visited_mono (W H : Nat) (k : ℚ) (u a e : Bool) (si : Nat) (nc : Color)
    (s : FFState) (j : Nat) (h : s.visited.getD j false = true) :
    (ffStep W H k u a e si nc s).visited.getD j false = true := by
  match hs : s.stack with
  | [] => rw [ffStep_nil W H k u a e si nc s hs]; exact h
  | (x, y, c) :: rest =>
    cases hcond : (!inBoundsB W H x y || s.visited.getD (idxOf W x y) false) with
    | true => rw [ffStep_skip W H k u a e si nc s x y c rest hs hcond]; exact h
    | false =>
      have hb : inBoundsB W H x y = true := by
        cases hbb : inBoundsB W H x y <;> simp [hbb] at hcond ⊢
      have hv : s.visited.getD (idxOf W x y) false = false := by
        cases hgv : s.visited.getD (idxOf W x y) false
        · rfl
        · rw [hb, hgv] at hcond
          simp at hcond
      obtain ⟨h1, -⟩ := ffStep_core W H k u a e si nc s x y c rest hs hb hv
      rw [h1]
      exact getD_set_true_mono _ _ _ h

theorem floodSteps_visited_mono (W H : Nat) (k : ℚ) (u a e : Bool) (si : Nat) (nc : Color)
    (n : Nat) (s : FFState) (j : Nat) (h : s.visited.getD j false = true) :
    (floodSteps W H k u a e si nc n s).visited.getD j false = true := by
  induction n generalizing s with
  | zero => exact h
  | succ n ih =>
    rw [floodSteps]
    exact ih _ (ffStep_visited_mono W H k u a e si nc s j h)

theorem ffStep_size_conserve (W H : Nat) (k : ℚ) (u a e : Bool) (si : Nat) (nc : Color)
    (s : FFState) (hlen : W * H ≤ s.visited.length) :
    (ffStep W H k u a e si nc s).size + falseCount (ffStep W H k u a e si nc s).visited
      = s.size + falseCount s.visited := by
  match hs : s.stack with
  | [] => rw [ffStep_nil W H k u a e si nc s hs]
  | (x, y, c) :: rest =>
    cases hcond : (!inBoundsB W H x y || s.visited.getD (idxOf W x y) false) with
    | true => rw [ffStep_skip W H k u a e si nc s x y c rest hs hcond]
    | false =>
      have hb : inBoundsB W H x y = true := by
        cases hbb : inBoundsB W H x y <;> simp [hbb] at hcond ⊢
      have hv : s.visited.getD (idxOf W x y) false = false := by
        cases hgv : s.visited.getD (idxOf W x y) false
        · rfl
        · rw [hb, hgv] at hcond
          simp at hcond
      obtain ⟨h1, -, h3, -⟩ := ffStep_core W H k u a e si nc s x y c rest hs hb hv
      have hidx : idxOf W x y < s.visited.length :=
        lt_of_lt_of_le (idxOf_lt W H x y hb) hlen
      have hfc := falseCount_set_true s.visited (idxOf W x y) hidx hv
      rw [h1, h3]
      omega

theorem floodSteps_size_conserve (W H : Nat) (k : ℚ) (u a e : Bool) (si : Nat) (nc : Color)
    (n : Nat) (s : FFState) (hlen : W * H ≤ s.visited.length) :
    (floodSteps W H k u a e si nc n s).size
        + falseCount (floodSteps W H k u a e si nc n s).visited
      = s.size + falseCount s.visited := by
  induction n generalizing s with
  | zero => rfl
  | succ n ih =>
    rw [floodSteps]
    rw [ih _ (by rw [ffStep_visited_length]; exact hlen)]
    exact ffStep_size_conserve W H k u a e si nc s hlen

theorem floodSteps_top_visited (W H : Nat) (k : ℚ) (u a e : Bool) (si : Nat) (nc : Color)
    (n : Nat) (s : FFState) (x y : Int) (c : Color) (rest : List (Int × Int × Color))
    (hs : s.stack = (x, y, c) :: rest)
    (hb : inBoundsB W H x y = true)
    (hlen : W * H ≤ s.visited.length) :
    (floodSteps W H k u a e si nc (n + 1) s).visited.getD (idxOf W x y) false = true := by
  rw [floodSteps]
  apply floodSteps_visited_mono
  cases hv : s.visited.getD (idxOf W x y) false with
  | true =>
    have hcond : (!inBoundsB W H x y || s.visited.getD (idxOf W x y) false) = true := by
      rw [hb, hv]
      rfl
    rw [ffStep_skip W H k u a e si nc s x y c rest hs hcond]
    exact hv
  | false =>
    obtain ⟨h1, -⟩ := ffStep_core W H k u a e si nc s x y c rest hs hb hv
    rw [h1]
    exact getD_set_self _ _ _ (lt_of_lt_of_le (idxOf_lt W H x y hb) hlen)

theorem idxOf_coords (W : Nat) (p : Nat) :
    idxOf W ((p % W : Nat) : Int) ((p / W : Nat) : Int) = p := by
  rw [idxOf, Int.toNat_natCast, Int.toNat_natCast]
  have := Nat.div_add_mod p W
  calc p / W * W + p % W = W * (p / W) + p % W := by rw [Nat.mul_comm]
    _ = p := this

theorem coords_inBounds (W H : Nat) (p : Nat) (hp : p < W * H) :
    inBoundsB W H ((p % W : Nat) : Int) ((p / W : Nat) : Int) = true := by
  have hW : 0 < W := by
    rcases Nat.eq_zero_or_pos W with h | h
    · subst h; simp at hp
    · exact h
  have h1 : p % W < W := Nat.mod_lt p hW
  have h2 : p / W < H := by
    rw [Nat.div_lt_iff_lt_mul hW]
    calc p < W * H := hp
      _ = H * W := Nat.mul_comm W H
  rw [inBoundsB_iff]
  exact ⟨by positivity, by exact_mod_cast h1, by positivity, by exact_mod_cast h2⟩

theorem falseCount_replicate (m : Nat) : falseCount (List.replicate m false) = m := by
  induction m with
  | zero => rfl
  | succ m ih =>
    rw [List.replicate_succ, falseCount, List.countP_cons]
    rw [falseCount] at ih
    simp [ih]

/-! ### Scan-level invariants -/

theorem scanFill_facts (W H : Nat) (k : ℚ) (u a e : Bool) (nc : Color) (p : Nat)
    (img : List Color) (vis mask rec : List Bool) (s1 : FFState)
    (hp : p < W * H) (hlen : vis.length = W * H)
    (hs1 : s1 = floodFillIterative W H k u a e p nc
      ⟨img, vis, mask, rec, (W : Int), 0, (H : Int), 0, 0,
        [(((p % W : Nat) : Int), ((p / W : Nat) : Int), img.getD p ⟨0, 0, 0⟩)]⟩) :
    s1.visited.length = W * H ∧
    s1.size + falseCount s1.visited = falseCount vis ∧
    s1.visited.getD p false = true ∧
    ∀ q, vis.getD q false = true → s1.visited.getD q false = true := by
  subst hs1
  rw [floodFillIterative]
  set s0 : FFState := ⟨img, vis, mask, rec, (W : Int), 0, (H : Int), 0, 0,
    [(((p % W : Nat) : Int), ((p / W : Nat) : Int), img.getD p ⟨0, 0, 0⟩)]⟩ with hs0
  have hlen0 : s0.visited.length = W * H := hlen
  have hm : ffMeasure s0 = 9 * falseCount vis + 1 := by
    rw [ffMeasure]
    simp [hs0]
    omega
  refine ⟨?_, ?_, ?_, ?_⟩
  · rw [floodSteps_visited_length]
    exact hlen
  · have := floodSteps_size_conserve W H k u a e p nc (ffMeasure s0) s0 (le_of_eq hlen0.symm)
    simpa [hs0] using this
  · rw [hm]
    have := floodSteps_top_visited W H k u a e p nc (9 * falseCount vis) s0
      (((p % W : Nat) : Int)) (((p / W : Nat) : Int)) (img.getD p ⟨0, 0, 0⟩) [] rfl
      (coords_inBounds W H p hp) (le_of_eq hlen0.symm)
    rwa [idxOf_coords] at this
  · intro q hq
    exact floodSteps_visited_mono W H k u a e p nc _ s0 q hq

theorem scanStep_facts (W H : Nat) (cfg : Config) (heat : List ℚ) (colors : Nat → Color)
    (st : ScanState) (p : Nat) (hp : p < W * H)
    (hlen : st.visited.length = W * H)
    (hfilter : st.components.map ComponentData.toRegion
      = st.regions.filter (keepRegion cfg.minComponentSize)) :
    (scanStep W H cfg heat colors st p).visited.length = W * H ∧
    ((scanStep W H cfg heat colors st p).regions.map Region.size).sum
        + falseCount (scanStep W H cfg heat colors st p).visited
      = (st.regions.map Region.size).sum + falseCount st.visited ∧
    (scanStep W H cfg heat colors st p).visited.getD p false = true ∧
    (∀ q, st.visited.getD q false = true →
      (scanStep W H cfg heat colors st p).visited.getD q false = true) ∧
    (scanStep W H cfg heat colors st p).components.map ComponentData.toRegion
      = (scanStep W H cfg heat colors st p).regions.filter (keepRegion cfg.minComponentSize) := by
  cases hvp : st.visited.getD p false with
  | true =>
    have hstep : scanStep W H cfg heat colors st p = st := by
      rw [scanStep, if_pos hvp]
    rw [hstep]
    exact ⟨hlen, rfl, hvp, fun q h => h, hfilter⟩
  | false =>
    have hne : ¬ (st.visited.getD p false = true) := by
      rw [hvp]
      simp
    obtain ⟨f1, f2, f3, f4⟩ := scanFill_facts W H cfg.k cfg.use8Way cfg.adj cfg.euclidif
      (colors st.regions.length) p st.image st.visited st.bigMask st.recolored _ hp hlen rfl
    simp only [scanStep, hvp, Bool.false_eq_true, if_false]
    split
    next hkeep =>
      refine ⟨f1, ?_, f3, f4, ?_⟩
      · simp only [List.map_append, List.sum_append, List.map_cons, List.map_nil,
          List.sum_cons, List.sum_nil]
        omega
      · simp only [List.map_append, List.filter_append, hfilter, List.map_cons, List.map_nil,
          List.filter_cons, hkeep, List.filter_nil, if_true]
        rfl
    next hkeep =>
      refine ⟨f1, ?_, f3, f4, ?_⟩
      · simp only [List.map_append, List.sum_append, List.map_cons, List.map_nil,
          List.sum_cons, List.sum_nil]
        omega
      · rw [Bool.not_eq_true] at hkeep
        simp only [List.filter_append, hfilter, List.filter_cons, hkeep, List.filter_nil]
        simp

theorem scanPrefix_succ (W H : Nat) (cfg : Config) (img : List Color) (heat : List ℚ)
    (colors : Nat → Color) (n : Nat) :
    scanPrefix W H cfg img heat colors (n + 1)
      = scanStep W H cfg heat colors (scanPrefix W H cfg img heat colors n) n := by
  rw [scanPrefix, scanPrefix, List.range_succ, List.foldl_append]
  rfl

theorem floodFillIterative_visited_mono (W H : Nat) (k : ℚ) (u a e : Bool) (si : Nat)
    (nc : Color) (s : FFState) (j : Nat) (h : s.visited.getD j false = true) :
    (floodFillIterative W H k u a e si nc s).visited.getD j false = true :=
  floodSteps_visited_mono W H k u a e si nc (ffMeasure s) s j h

theorem scanStep_visited_mono (W H : Nat) (cfg : Config) (heat : List ℚ)
    (colors : Nat → Color) (st : ScanState) (p q : Nat)
    (h : st.visited.getD q false = true) :
    (scanStep W H cfg heat colors st p).visited.getD q false = true := by
  cases hvp : st.visited.getD p false with
  | true =>
    rw [scanStep, if_pos hvp]
    exact h
  | false =>
    simp only [scanStep, hvp, Bool.false_eq_true, if_false]
    split <;>
      exact floodFillIterative_visited_mono W H cfg.k cfg.use8Way cfg.adj cfg.euclidif p _ _ q h

theorem scanPrefix_facts (W H : Nat) (cfg : Config) (img : List Color) (heat : List ℚ)
    (colors : Nat → Color) (n : Nat) (hn : n ≤ W * H) :
    (scanPrefix W H cfg img heat colors n).visited.length = W * H ∧
    ((scanPrefix W H cfg img heat colors n).regions.map Region.size).sum
        + falseCount (scanPrefix W H cfg img heat colors n).visited = W * H ∧
    (∀ q, q < n → (scanPrefix W H cfg img heat colors n).visited.getD q false = true) ∧
    (scanPrefix W H cfg img heat colors n).components.map ComponentData.toRegion
      = (scanPrefix W H cfg img heat colors n).regions.filter
          (keepRegion cfg.minComponentSize) := by
  induction n with
  | zero =>
    refine ⟨?_, ?_, ?_, ?_⟩ <;>
      simp [scanPrefix, initScanState, falseCount_replicate]
  | succ n ih =>
    obtain ⟨h1, h2, h3, h4⟩ := ih (Nat.le_of_succ_le hn)
    obtain ⟨g1, g2, g3, g4, g5⟩ :=
      scanStep_facts W H cfg heat colors (scanPrefix W H cfg img heat colors n) n hn h1 h4
    rw [scanPrefix_succ]
    refine ⟨g1, by omega, ?_, g5⟩
    intro q hq
    rcases Nat.lt_or_ge q n with hlt | hge
    · exact g4 q (h3 q hlt)
    · have : q = n := by omega
      subst this
      exact g3

/-- Claim C3 (confirmed): over a whole image pass, the region sizes
reported by the flood-fill invocations — kept and discarded alike, recorded
in the ghost `regions` trace — sum to `width * height`; the visited set
only ever grows from one scan step to the next; and at the end of the scan
every pixel is visited. -/
theorem scan_total_size_and_visited (W H : Nat) (cfg : Config) (img : List Color)
    (heat : List ℚ) (colors : Nat → Color) :
    ((processImageModel W H cfg img heat colors).regions.map Region.size).sum = W * H ∧
    (∀ n q, (scanPrefix W H cfg img heat colors n).visited.getD q false = true →
      (scanPrefix W H cfg img heat colors (n + 1)).visited.getD q false = true) ∧
    ∀ i, i < W * H →
      (processImageModel W H cfg img heat colors).visited.getD i false = true := by
  obtain ⟨h1, h2, h3, h4⟩ := scanPrefix_facts W H cfg img heat colors (W * H) (le_refl _)
  have hreg : (processImageModel W H cfg img heat colors).regions
      = (scanPrefix W H cfg img heat colors (W * H)).regions := rfl
  have hvis : (processImageModel W H cfg img heat colors).visited
      = (scanPrefix W H cfg img heat colors (W * H)).visited := rfl
  have hfc : falseCount (scanPrefix W H cfg img heat colors (W * H)).visited = 0 := by
    apply falseCount_eq_zero
    intro i hi
    rw [h1] at hi
    exact h3 i hi
  refine ⟨?_, ?_, ?_⟩
  · rw [hreg]
    omega
  · intro n q hq
    rw [scanPrefix_succ]
    exact scanStep_visited_mono W H cfg heat colors _ n q hq
  · intro i hi
    rw [hvis]
    exact h3 i hi

/-- Witness for `scan_total_size_and_visited` on the 2×1 example: the two
region sizes sum to the pixel count, monotonicity holds at step 1 for the
(visited) pixel 0, and pixel 0 is visited at the end. -/
theorem scan_total_size_and_visited_witness :
    ((processImageModel 2 1 exCfg exImage2 exHeat2 exColors).regions.map Region.size).sum
        = 2 * 1 ∧
    ((scanPrefix 2 1 exCfg exImage2 exHeat2 exColors 1).visited.getD 0 false = true ∧
      (scanPrefix 2 1 exCfg exImage2 exHeat2 exColors 2).visited.getD 0 false = true) ∧
    (0 < 2 * 1 ∧
      (processImageModel 2 1 exCfg exImage2 exHeat2 exColors).visited.getD 0 false = true) := by
  refine ⟨(scan_total_size_and_visited 2 1 exCfg exImage2 exHeat2 exColors).1,
    ⟨?_, ?_⟩, by decide,
    (scan_total_size_and_visited 2 1 exCfg exImage2 exHeat2 exColors).2.2 0 (by decide)⟩
  · with_unfolding_all decide
  · exact (scan_total_size_and_visited 2 1 exCfg exImage2 exHeat2 exColors).2.1 1 0
      (by with_unfolding_all decide)

/-- Claim C4 (confirmed): a component record is created for a region
exactly when the discard test `size < minComponentSize ||
size < boundingBoxArea / 3` fails — the kept components are precisely the
filter of the flood-fill region trace by `keepRegion` — and consequently
every kept component satisfies `minComponentSize ≤ pixelCount` and
`boundingBoxArea / 3 ≤ pixelCount` (C++ integer division). -/
theorem kept_components_characterized (W H : Nat) (cfg : Config) (img : List Color)
    (heat : List ℚ) (colors : Nat → Color) :
    (processImageModel W H cfg img heat colors).components.map ComponentData.toRegion
      = (processImageModel W H cfg img heat colors).regions.filter
          (keepRegion cfg.minComponentSize) ∧
    ∀ c ∈ (processImageModel W H cfg img heat colors).components,
      cfg.minComponentSize ≤ (c.size : Int) ∧ c.toRegion.area / 3 ≤ (c.size : Int) := by
  have h4 := (scanPrefix_facts W H cfg img heat colors (W * H) (le_refl _)).2.2.2
  have hcomp : (processImageModel W H cfg img heat colors).components
      = (scanPrefix W H cfg img heat colors (W * H)).components := rfl
  have hreg : (processImageModel W H cfg img heat colors).regions
      = (scanPrefix W H cfg img heat colors (W * H)).regions := rfl
  rw [hcomp, hreg]
  refine ⟨h4, ?_⟩
  intro c hc
  have hmem : c.toRegion ∈ (scanPrefix W H cfg img heat colors (W * H)).regions.filter
      (keepRegion cfg.minComponentSize) := by
    rw [← h4]
    exact List.mem_map_of_mem _ hc
  have hk := List.of_mem_filter hmem
  rw [keepRegion] at hk
  simp only [Bool.not_or, Bool.and_eq_true, Bool.not_eq_true', decide_eq_false_iff_not,
    not_lt] at hk
  have hsz : c.toRegion.size = c.size := rfl
  rw [hsz] at hk
  exact ⟨hk.1, hk.2⟩

/-- Witness for `kept_components_characterized` on the 2×1 example: its
single kept component (size 2, bounding box 2×1) passes both bounds. -/
theorem kept_components_characterized_witness :
    (⟨1, 0, 1, 0, 0, 2, 1/2, [true, true]⟩ : ComponentData)
        ∈ (processImageModel 2 1 exCfg exImage2 exHeat2 exColors).components ∧
    (exCfg.minComponentSize ≤ ((2 : Nat) : Int) ∧
      (⟨1, 0, 1, 0, 0, 2, 1/2, [true, true]⟩ : ComponentData).toRegion.area / 3
        ≤ ((2 : Nat) : Int)) := by
  have hmem : (⟨1, 0, 1, 0, 0, 2, 1/2, [true, true]⟩ : ComponentData)
      ∈ (processImageModel 2 1 exCfg exImage2 exHeat2 exColors).components := by
    with_unfolding_all decide
  exact ⟨hmem,
    (kept_components_characterized 2 1 exCfg exImage2 exHeat2 exColors).2 _ hmem⟩

/-- Claim C6 (amended): when a popped in-bounds, unvisited pixel fails the
similarity test, it is marked visited, marked in the scratch mask and
counted into the current region's size, while the image is left unrecolored
and nothing is pushed (it acts as a region boundary); and the raster scan
skips visited pixels, so such a pixel never seeds a region of its own
later. -/
theorem failing_pixel_stays_in_region (W H : Nat) (k : ℚ) (u a e : Bool) (si : Nat)
    (nc : Color) (s : FFState) (x y : Int) (c : Color) (rest : List (Int × Int × Color))
    (hs : s.stack = (x, y, c) :: rest)
    (hb : inBoundsB W H x y = true)
    (hv : s.visited.getD (idxOf W x y) false = false)
    (hlv : W * H ≤ s.visited.length)
    (hlm : W * H ≤ s.bigMask.length)
    (hc : colorSimilar (s.image.getD (idxOf W x y) ⟨0, 0, 0⟩)
        (if a then c else s.image.getD si ⟨0, 0, 0⟩) e k = false) :
    ((ffStep W H k u a e si nc s).visited.getD (idxOf W x y) false = true ∧
      (ffStep W H k u a e si nc s).bigMask.getD (idxOf W x y) false = true ∧
      (ffStep W H k u a e si nc s).size = s.size + 1 ∧
      (ffStep W H k u a e si nc s).image = s.image ∧
      (ffStep W H k u a e si nc s).recolored = s.recolored ∧
      (ffStep W H k u a e si nc s).stack = rest) ∧
    ∀ (cfg : Config) (heat : List ℚ) (colors : Nat → Color) (st : ScanState) (p : Nat),
      st.visited.getD p false = true → scanStep W H cfg heat colors st p = st := by
  have hidx := idxOf_lt W H x y hb
  constructor
  · rw [ffStep, hs]
    simp only [hb, hv, Bool.not_true, Bool.false_or, Bool.or_false]
    simp only [hc, Bool.false_eq_true, if_false]
    refine ⟨?_, ?_, ?_, ?_, ?_, ?_⟩
    · exact getD_set_self _ _ _ (lt_of_lt_of_le hidx hlv)
    · exact getD_set_self _ _ _ (lt_of_lt_of_le hidx hlm)
    · trivial
    · trivial
    · trivial
    · trivial
  · intro cfg heat colors st p hp
    rw [scanStep, if_pos hp]

/-- Witness for `failing_pixel_stays_in_region`: the spec's §8 example
mid-fill, the seed `(0,0)` already visited and recolored, the failing
neighbor `(1,0)` on top of the stack. -/
theorem failing_pixel_stays_in_region_witness :
    ((⟨[⟨200, 200, 200⟩, ⟨12, 11, 9⟩], [true, false], [true, false], [true, false],
        0, 0, 0, 0, 1, [(1, 0, ⟨10, 10, 10⟩)]⟩ : FFState).stack
        = (1, 0, ⟨10, 10, 10⟩) :: [] ∧
      inBoundsB 2 1 1 0 = true ∧
      ([true, false] : List Bool).getD (idxOf 2 1 0) false = false ∧
      2 * 1 ≤ 2 ∧
      colorSimilar ⟨12, 11, 9⟩ (if true then ⟨10, 10, 10⟩
        else ([⟨200, 200, 200⟩, ⟨12, 11, 9⟩] : List Color).getD 0 ⟨0, 0, 0⟩) false 2 = false) ∧
    ((ffStep 2 1 2 false true false 0 ⟨200, 200, 200⟩
        ⟨[⟨200, 200, 200⟩, ⟨12, 11, 9⟩], [true, false], [true, false], [true, false],
          0, 0, 0, 0, 1, [(1, 0, ⟨10, 10, 10⟩)]⟩).visited.getD (idxOf 2 1 0) false = true ∧
      (ffStep 2 1 2 false true false 0 ⟨200, 200, 200⟩
        ⟨[⟨200, 200, 200⟩, ⟨12, 11, 9⟩], [true, false], [true, false], [true, false],
          0, 0, 0, 0, 1, [(1, 0, ⟨10, 10, 10⟩)]⟩).bigMask.getD (idxOf 2 1 0) false = true ∧
      (ffStep 2 1 2 false true false 0 ⟨200, 200, 200⟩
        ⟨[⟨200, 200, 200⟩, ⟨12, 11, 9⟩], [true, false], [true, false], [true, false],
          0, 0, 0, 0, 1, [(1, 0, ⟨10, 10, 10⟩)]⟩).size
        = (⟨[⟨200, 200, 200⟩, ⟨12, 11, 9⟩], [true, false], [true, false], [true, false],
            0, 0, 0, 0, 1, [(1, 0, ⟨10, 10, 10⟩)]⟩ : FFState).size + 1 ∧
      (ffStep 2 1 2 false true false 0 ⟨200, 200, 200⟩
        ⟨[⟨200, 200, 200⟩, ⟨12, 11, 9⟩], [true, false], [true, false], [true, false],
          0, 0, 0, 0, 1, [(1, 0, ⟨10, 10, 10⟩)]⟩).image
        = [⟨200, 200, 200⟩, ⟨12, 11, 9⟩] ∧
      (ffStep 2 1 2 false true false 0 ⟨200, 200, 200⟩
        ⟨[⟨200, 200, 200⟩, ⟨12, 11, 9⟩], [true, false], [true, false], [true, false],
          0, 0, 0, 0, 1, [(1, 0, ⟨10, 10, 10⟩)]⟩).recolored = [true, false] ∧
      (ffStep 2 1 2 false true false 0 ⟨200, 200, 200⟩
        ⟨[⟨200, 200, 200⟩, ⟨12, 11, 9⟩], [true, false], [true, false], [true, false],
          0, 0, 0, 0, 1, [(1, 0, ⟨10, 10, 10⟩)]⟩).stack = []) ∧
    ∀ (cfg : Config) (heat : List ℚ) (colors : Nat → Color) (st : ScanState) (p : Nat),
      st.visited.getD p false = true → scanStep 2 1 cfg heat colors st p = st := by
  have h := failing_pixel_stays_in_region 2 1 2 false true false 0 ⟨200, 200, 200⟩
    ⟨[⟨200, 200, 200⟩, ⟨12, 11, 9⟩], [true, false], [true, false], [true, false],
      0, 0, 0, 0, 1, [(1, 0, ⟨10, 10, 10⟩)]⟩ 1 0 ⟨10, 10, 10⟩ []
    rfl (by decide) (by decide) (by decide) (by decide) (by with_unfolding_all decide)
  exact ⟨⟨rfl, by decide, by decide, by decide, by with_unfolding_all decide⟩, h.1, h.2⟩

/-! ### Probability aggregation -/

theorem extract_foldl_facts (W compW : Nat) (rx ry : Int) (bigMask : List Bool)
    (heat : List ℚ) (L : List (Int × Int)) (acc : ExtractAcc) :
    (L.foldl
      (fun acc2 c =>
        if bigMask.getD (idxOf W c.1 c.2) false then
          { mask := acc2.mask.set ((c.2 - ry).toNat * compW + (c.1 - rx).toNat) true
            total := acc2.total + heat.getD (idxOf W c.1 c.2) 0
            count := acc2.count + 1 }
        else acc2) acc).total
      = acc.total + ((L.filter (fun c => bigMask.getD (idxOf W c.1 c.2) false)).map
          (fun c => heat.getD (idxOf W c.1 c.2) 0)).sum ∧
    (L.foldl
      (fun acc2 c =>
        if bigMask.getD (idxOf W c.1 c.2) false then
          { mask := acc2.mask.set ((c.2 - ry).toNat * compW + (c.1 - rx).toNat) true
            total := acc2.total + heat.getD (idxOf W c.1 c.2) 0
            count := acc2.count + 1 }
        else acc2) acc).count
      = acc.count + (L.filter (fun c => bigMask.getD (idxOf W c.1 c.2) false)).length := by
  induction L generalizing acc with
  | nil => simp
  | cons c L ih =>
    rw [List.foldl_cons, List.filter_cons]
    cases hm : bigMask.getD (idxOf W c.1 c.2) false with
    | true =>
      simp only [hm, if_true, List.map_cons, List.sum_cons, List.length_cons]
      obtain ⟨ih1, ih2⟩ := ih _
      constructor
      · rw [ih1]
        simp only
        ring
      · rw [ih2]
        simp only
        omega
    | false =>
      simp only [hm, Bool.false_eq_true, if_false]
      exact ih acc

/-- Claim C8 (confirmed): the probability aggregation of source lines
504–517 returns the arithmetic mean of the heatmap values at the positions
where the scratch mask is set inside the bounding box, and returns `0`
when no position is masked; it is a total function with no failure case. -/
theorem componentAvgProbability_is_mean (W : Nat) (r : Region) (bigMask : List Bool)
    (heat : List ℚ) :
    componentAvgProbability W r bigMask heat
      = if maskedCells W r bigMask = [] then 0
        else ((maskedCells W r bigMask).map (fun c => heat.getD (idxOf W c.1 c.2) 0)).sum
          / ((maskedCells W r bigMask).length : ℚ) := by
  obtain ⟨h1, h2⟩ := extract_foldl_facts W (r.xMax - r.xMin + 1).toNat r.xMin r.yMin
    bigMask heat (boxTraversal r)
    { mask := List.replicate ((r.xMax - r.xMin + 1).toNat * (r.yMax - r.yMin + 1).toNat) false
      total := 0
      count := 0 }
  have hex : extractComponent W r bigMask heat
      = (boxTraversal r).foldl
          (fun acc2 c =>
            if bigMask.getD (idxOf W c.1 c.2) false then
              { mask := acc2.mask.set
                  ((c.2 - r.yMin).toNat * (r.xMax - r.xMin + 1).toNat + (c.1 - r.xMin).toNat) true
                total := acc2.total + heat.getD (idxOf W c.1 c.2) 0
                count := acc2.count + 1 }
            else acc2)
          { mask := List.replicate
              ((r.xMax - r.xMin + 1).toNat * (r.yMax - r.yMin + 1).toNat) false
            total := 0
            count := 0 } := rfl
  rw [componentAvgProbability, hex, h1, h2, maskedCells]
  simp only [zero_add, Nat.zero_add]
  by_cases hfe : (boxTraversal r).filter (fun c => bigMask.getD (idxOf W c.1 c.2) false) = []
  · rw [hfe]
    simp
  · rw [if_neg hfe, if_pos (List.length_pos.mpr hfe)]

/-! ### Percentile thresholds -/

theorem sorted_perm_eq_insertionSort {α : Type} [LinearOrder α] (l l' : List α)
    (hp : l.Perm l') (hs : l'.Sorted (· ≤ ·)) :
    l' = l.insertionSort (· ≤ ·) :=
  List.eq_of_perm_of_sorted
    (hp.symm.trans (List.perm_insertionSort (· ≤ ·) l).symm) hs
    (List.sorted_insertionSort (· ≤ ·) l)

theorem floor_rank_lt (m d n : Nat) (hn : 0 < n) (hmd : m < d) : m * n / d < n := by
  rw [Nat.div_lt_iff_lt_mul (by omega)]
  calc m * n < d * n := (Nat.mul_lt_mul_right hn).mpr hmd
  _ = n * d := Nat.mul_comm d n

/-- Claim C1 (amended): the probability threshold used by the single-image
classifier is the value at index `⌊0.8 · M⌋` (`M` the number of per-pixel
heatmap values; the index clamp never fires for a nonempty heatmap) of the
per-pixel heatmap values sorted ascending — a percentile of the pixel
probability population, not of the component average probabilities — and
the per-component classification flags are computed from exactly this
threshold. -/
theorem probThreshold_is_heatmap_percentile (W H : Nat) (cfg : Config) (img : List Color)
    (heat : List ℚ) (colors : Nat → Color) (l : List ℚ)
    (hne : heat ≠ []) (hp : heat.Perm l) (hs : l.Sorted (· ≤ ·)) :
    (processImageModel W H cfg img heat colors).probThreshold
      = l.getD (4 * heat.length / 5) 0 ∧
    (processImageModel W H cfg img heat colors).classified
      = (processImageModel W H cfg img heat colors).components.map
          (fun c =>
            (c, decide ((processImageModel W H cfg img heat colors).probThreshold
                  ≤ c.avgProbability)
              && decide (c.size
                  ≤ (processImageModel W H cfg img heat colors).sizeThreshold))) := by
  constructor
  · have hthr : (processImageModel W H cfg img heat colors).probThreshold
        = probabilityThreshold80 heat := rfl
    rw [hthr, probabilityThreshold80]
    have hlen : 0 < heat.length := List.length_pos.mpr hne
    have hidx : 4 * heat.length / 5 < heat.length := floor_rank_lt 4 5 heat.length hlen
      (by omega)
    rw [if_neg (by omega)]
    rw [sorted_perm_eq_insertionSort heat l hp hs]
  · rfl

/-- Witness for `probThreshold_is_heatmap_percentile` on the 2×1 example:
the heatmap `[0, 1]` is its own sorted permutation and the threshold is the
value at index `⌊0.8·2⌋ = 1`, namely `1`. -/
theorem probThreshold_is_heatmap_percentile_witness :
    (exHeat2 ≠ [] ∧ exHeat2.Perm [0, 1] ∧ ([0, 1] : List ℚ).Sorted (· ≤ ·)) ∧
    (processImageModel 2 1 exCfg exImage2 exHeat2 exColors).probThreshold
      = ([0, 1] : List ℚ).getD (4 * exHeat2.length / 5) 0 := by
  have h1 : exHeat2 ≠ [] := by with_unfolding_all decide
  have h2 : exHeat2.Perm [0, 1] := List.Perm.refl _
  have h3 : ([0, 1] : List ℚ).Sorted (· ≤ ·) := by
    with_unfolding_all decide
  exact ⟨⟨h1, h2, h3⟩,
    (probThreshold_is_heatmap_percentile 2 1 exCfg exImage2 exHeat2 exColors [0, 1]
      h1 h2 h3).1⟩

/-- Claim C2 (amended): a component is classified a building block iff its
average probability is at least the probability threshold and its size is
at most the size threshold, where the size threshold is the value at index
`⌊0.9 · N⌋` (`N` the number of kept components; the clamp never fires for a
nonempty population, and the threshold is `0` for an empty one) of the
components' pixel counts sorted ascending — rank `⌊0.9·N⌋`, not
`⌈0.9·N⌉`. -/
theorem classification_iff_thresholds (W H : Nat) (cfg : Config) (img : List Color)
    (heat : List ℚ) (colors : Nat → Color) (l : List Nat)
    (hp : ((processImageModel W H cfg img heat colors).components.map (·.size)).Perm l)
    (hs : l.Sorted (· ≤ ·)) :
    (∀ cb ∈ (processImageModel W H cfg img heat colors).classified,
      cb.2 = true ↔
        ((processImageModel W H cfg img heat colors).probThreshold ≤ cb.1.avgProbability ∧
          cb.1.size ≤ (processImageModel W H cfg img heat colors).sizeThreshold)) ∧
    ((processImageModel W H cfg img heat colors).components ≠ [] →
      (processImageModel W H cfg img heat colors).sizeThreshold
        = l.getD
            (9 * ((processImageModel W H cfg img heat colors).components.map (·.size)).length
              / 10) 0) := by
  constructor
  · intro cb hcb
    have hcl : (processImageModel W H cfg img heat colors).classified
        = classifyComponents (processImageModel W H cfg img heat colors).probThreshold
            (processImageModel W H cfg img heat colors).sizeThreshold
            (processImageModel W H cfg img heat colors).components := rfl
    rw [hcl, classifyComponents] at hcb
    obtain ⟨c, -, rfl⟩ := List.mem_map.mp hcb
    simp [Bool.and_eq_true, decide_eq_true_eq]
  · intro hne
    have hthr : (processImageModel W H cfg img heat colors).sizeThreshold
        = sizeThreshold90 ((processImageModel W H cfg img heat colors).components.map (·.size))
        := rfl
    have hne' : (processImageModel W H cfg img heat colors).components.map (·.size) ≠ [] := by
      simp [hne]
    have hlen : 0 < ((processImageModel W H cfg img heat colors).components.map (·.size)).length :=
      List.length_pos.mpr hne'
    have hidx := floor_rank_lt 9 10
      ((processImageModel W H cfg img heat colors).components.map (·.size)).length hlen
      (by omega)
    rw [hthr]
    simp only [sizeThreshold90]
    rw [if_neg (by simp [hne'])]
    rw [if_neg (by omega)]
    rw [sorted_perm_eq_insertionSort _ l hp hs]

/-- Witness for `classification_iff_thresholds` on the 2×1 example: the
single component has size population `[2]`, the size threshold is `2`, and
its flag `false` matches the conjunction (its average probability `1/2` is
below the pixel-percentile threshold `1`). -/
theorem classification_iff_thresholds_witness :
    (((processImageModel 2 1 exCfg exImage2 exHeat2 exColors).components.map (·.size)).Perm [2] ∧
      ([2] : List Nat).Sorted (· ≤ ·) ∧
      (⟨⟨1, 0, 1, 0, 0, 2, 1/2, [true, true]⟩, false⟩ : ComponentData × Bool)
        ∈ (processImageModel 2 1 exCfg exImage2 exHeat2 exColors).classified ∧
      (processImageModel 2 1 exCfg exImage2 exHeat2 exColors).components ≠ []) ∧
    ((⟨⟨1, 0, 1, 0, 0, 2, 1/2, [true, true]⟩, false⟩ : ComponentData × Bool).2 = true ↔
      ((processImageModel 2 1 exCfg exImage2 exHeat2 exColors).probThreshold
          ≤ (⟨⟨1, 0, 1, 0, 0, 2, 1/2, [true, true]⟩, false⟩ : ComponentData × Bool).1.avgProbability ∧
        (⟨⟨1, 0, 1, 0, 0, 2, 1/2, [true, true]⟩, false⟩ : ComponentData × Bool).1.size
          ≤ (processImageModel 2 1 exCfg exImage2 exHeat2 exColors).sizeThreshold)) ∧
    (processImageModel 2 1 exCfg exImage2 exHeat2 exColors).sizeThreshold
      = ([2] : List Nat).getD
          (9 * ((processImageModel 2 1 exCfg exImage2 exHeat2 exColors).components.map
            (·.size)).length / 10) 0 := by
  have hp : ((processImageModel 2 1 exCfg exImage2 exHeat2 exColors).components.map
      (·.size)).Perm [2] := by
    with_unfolding_all decide
  have hs : ([2] : List Nat).Sorted (· ≤ ·) := by decide
  have hmem : (⟨⟨1, 0, 1, 0, 0, 2, 1/2, [true, true]⟩, false⟩ : ComponentData × Bool)
      ∈ (processImageModel 2 1 exCfg exImage2 exHeat2 exColors).classified := by
    with_unfolding_all decide
  have hne : (processImageModel 2 1 exCfg exImage2 exHeat2 exColors).components ≠ [] := by
    with_unfolding_all decide
  exact ⟨⟨hp, hs, hmem, hne⟩,
    (classification_iff_thresholds 2 1 exCfg exImage2 exHeat2 exColors [2] hp hs).1 _ hmem,
    (classification_iff_thresholds 2 1 exCfg exImage2 exHeat2 exColors [2] hp hs).2 hne⟩

/-- Claim C9 (amended): the heatmap read fails exactly when the file holds
fewer than `width*height` floats; on success the in-memory heatmap is the
first `width*height` floats of the file, so a longer file is accepted with
the excess ignored. -/
theorem readHeatmap_fails_iff_short (file : List ℚ) (n : Nat) :
    (readHeatmap file n = none ↔ file.length < n) ∧
    ∀ hm, readHeatmap file n = some hm → hm.length = n ∧ hm = file.take n := by
  constructor
  · rw [readHeatmap]
    split_ifs with h <;> simp [h]
  · intro hm hsome
    rw [readHeatmap] at hsome
    split_ifs at hsome with h
    have hhm : file.take n = hm := Option.some.inj hsome
    subst hhm
    refine ⟨?_, rfl⟩
    rw [List.length_take]
    omega

/-- Witness for `readHeatmap_fails_iff_short`: a three-float file read for
a two-float request succeeds with the first two floats. -/
theorem readHeatmap_fails_iff_short_witness :
    (readHeatmap [0, 1, 2] 2 = some [0, 1] ∧ ¬ readHeatmap [0, 1, 2] 2 = none) ∧
    ([(0 : ℚ), 1] : List ℚ).length = 2 ∧ ([(0 : ℚ), 1] : List ℚ) = [(0 : ℚ), 1, 2].take 2 := by
  have hsome : readHeatmap [0, 1, 2] 2 = some [0, 1] := by decide
  refine ⟨⟨hsome, ?_⟩, (readHeatmap_fails_iff_short [0, 1, 2] 2).2 [0, 1] hsome⟩
  rw [hsome]
  simp

/-! ### Counting marked pixels inside a bounding box -/

theorem getD_replicate_false (m j : Nat) : (List.replicate m false).getD j false = false := by
  induction m generalizing j with
  | zero => cases j <;> rfl
  | succ m ih =>
    cases j with
    | zero => rfl
    | succ j =>
      rw [List.replicate_succ, List.getD_cons_succ]
      exact ih j

theorem trueCount_replicate_false (m : Nat) : trueCount (List.replicate m false) = 0 := by
  induction m with
  | zero => rfl
  | succ m ih =>
    rw [List.replicate_succ, trueCount, List.countP_cons]
    rw [trueCount] at ih
    simp [ih]

theorem trueCount_pos_of_getD (l : List Bool) (j : Nat) (h : l.getD j false = true) :
    0 < trueCount l := by
  have hj := getD_true_lt_length l j h
  rw [trueCount, List.countP_pos_iff]
  refine ⟨l[j], List.getElem_mem hj, ?_⟩
  rw [List.getD_eq_getElem?_getD, List.getElem?_eq_getElem hj] at h
  simpa using h

theorem trueCount_eq_countP_range (l : List Bool) :
    trueCount l = (List.range l.length).countP (fun j => l.getD j false) := by
  induction l with
  | nil => rfl
  | cons a t ih =>
    rw [List.length_cons, List.range_succ_eq_map, List.countP_cons, List.countP_map]
    have hcongr : (List.range t.length).countP ((fun j => (a :: t).getD j false) ∘ (· + 1))
        = (List.range t.length).countP (fun j => t.getD j false) := by
      apply List.countP_congr
      intro j hj
      simp [Function.comp, List.getD_cons_succ]
    rw [hcongr, trueCount, List.countP_cons]
    rw [trueCount] at ih
    rw [ih]
    simp [List.getD_cons_zero]

theorem nodup_subset_length_le {α : Type} [DecidableEq α] (L B : List α)
    (hnd : L.Nodup) (hsub : ∀ x ∈ L, x ∈ B) : L.length ≤ B.length := by
  calc L.length = L.toFinset.card := (List.toFinset_card_of_nodup hnd).symm
    _ ≤ B.toFinset.card := Finset.card_le_card (fun x hx => by
        rw [List.mem_toFinset] at hx ⊢
        exact hsub x hx)
    _ ≤ B.length := B.toFinset_card_le

theorem sum_map_const_range (n c : Nat) (f : Nat → Nat) (hf : ∀ i, f i = c) :
    ((List.range n).map f).sum = n * c := by
  induction n with
  | zero => simp
  | succ n ih =>
    rw [List.range_succ, List.map_append, List.sum_append]
    simp [hf, ih, Nat.succ_mul]

theorem boxEnum_length (W xn xx yn yx : Nat) :
    ((List.range (yx - yn + 1)).flatMap (fun dy =>
      (List.range (xx - xn + 1)).map (fun dx => (yn + dy) * W + (xn + dx)))).length
    = (yx - yn + 1) * (xx - xn + 1) := by
  rw [List.length_flatMap]
  apply sum_map_const_range
  intro dy
  simp [Function.comp]

theorem trueCount_le_box (W H : Nat) (mask : List Bool) (xn xx yn yx : Nat)
    (hbox : ∀ j, mask.getD j false = true →
      j < W * H ∧ xn ≤ j % W ∧ j % W ≤ xx ∧ yn ≤ j / W ∧ j / W ≤ yx) :
    trueCount mask ≤ (yx - yn + 1) * (xx - xn + 1) := by
  rw [trueCount_eq_countP_range, List.countP_eq_length_filter]
  rw [← boxEnum_length W xn xx yn yx]
  apply nodup_subset_length_le
  · exact (List.nodup_range _).filter _
  · intro j hj
    rw [List.mem_filter] at hj
    obtain ⟨hjr, hjm⟩ := hj
    obtain ⟨hjWH, hx1, hx2, hy1, hy2⟩ := hbox j hjm
    rw [List.mem_flatMap]
    refine ⟨j / W - yn, ?_, ?_⟩
    · rw [List.mem_range]
      omega
    · rw [List.mem_map]
      refine ⟨j % W - xn, by rw [List.mem_range]; omega, ?_⟩
      have h1 : yn + (j / W - yn) = j / W := by omega
      have h2 : xn + (j % W - xn) = j % W := by omega
      rw [h1, h2]
      have h3 := Nat.div_add_mod j W
      calc j / W * W + j % W = W * (j / W) + j % W := by ring
        _ = j := h3

/-! ### Bounding-box tightness invariant -/

theorem ffStep_mask_mono (W H : Nat) (k : ℚ) (u a e : Bool) (si : Nat) (nc : Color)
    (s : FFState) (j : Nat) (h : s.bigMask.getD j false = true) :
    (ffStep W H k u a e si nc s).bigMask.getD j false = true := by
  match hs : s.stack with
  | [] =>
    rw [ffStep_nil W H k u a e si nc s hs]
    exact h
  | (x, y, c) :: rest =>
    cases hcond : (!inBoundsB W H x y || s.visited.getD (idxOf W x y) false) with
    | true =>
      rw [ffStep_skip W H k u a e si nc s x y c rest hs hcond]
      exact h
    | false =>
      have hb : inBoundsB W H x y = true := by
        cases hbb : inBoundsB W H x y <;> simp [hbb] at hcond ⊢
      have hv : s.visited.getD (idxOf W x y) false = false := by
        cases hgv : s.visited.getD (idxOf W x y) false
        · rfl
        · rw [hb, hgv] at hcond
          simp at hcond
      obtain ⟨-, h2, -⟩ := ffStep_core W H k u a e si nc s x y c rest hs hb hv
      rw [h2]
      exact getD_set_true_mono _ _ _ h

theorem floodSteps_mask_mono (W H : Nat) (k : ℚ) (u a e : Bool) (si : Nat) (nc : Color)
    (n : Nat) (s : FFState) (j : Nat) (h : s.bigMask.getD j false = true) :
    (floodSteps W H k u a e si nc n s).bigMask.getD j false = true := by
  induction n generalizing s with
  | zero => exact h
  | succ n ih =>
    rw [floodSteps]
    exact ih _ (ffStep_mask_mono W H k u a e si nc s j h)

theorem floodSteps_top_masked (W H : Nat) (k : ℚ) (u a e : Bool) (si : Nat) (nc : Color)
    (n : Nat) (s : FFState) (x y : Int) (c : Color) (rest : List (Int × Int × Color))
    (hs : s.stack = (x, y, c) :: rest)
    (hb : inBoundsB W H x y = true)
    (hv : s.visited.getD (idxOf W x y) false = false)
    (hlm : W * H ≤ s.bigMask.length) :
    (floodSteps W H k u a e si nc (n + 1) s).bigMask.getD (idxOf W x y) false = true := by
  rw [floodSteps]
  apply floodSteps_mask_mono
  obtain ⟨-, h2, -⟩ := ffStep_core W H k u a e si nc s x y c rest hs hb hv
  rw [h2]
  exact getD_set_self _ _ _ (lt_of_lt_of_le (idxOf_lt W H x y hb) hlm)

theorem ffStep_fillInv (W H : Nat) (k : ℚ) (u a e : Bool) (si : Nat) (nc : Color)
    (s : FFState) (inv : FillInv W H s) :
    FillInv W H (ffStep W H k u a e si nc s) := by
  match hs : s.stack with
  | [] =>
    rw [ffStep_nil W H k u a e si nc s hs]
    exact inv
  | (x, y, c) :: rest =>
    cases hcond : (!inBoundsB W H x y || s.visited.getD (idxOf W x y) false) with
    | true =>
      rw [ffStep_skip W H k u a e si nc s x y c rest hs hcond]
      exact ⟨inv.hvl, inv.hml, inv.hmv, inv.hsz, inv.hbox, inv.hach⟩
    | false =>
      have hb : inBoundsB W H x y = true := by
        cases hbb : inBoundsB W H x y <;> simp [hbb] at hcond ⊢
      have hv : s.visited.getD (idxOf W x y) false = false := by
        cases hgv : s.visited.getD (idxOf W x y) false
        · rfl
        · rw [hb, hgv] at hcond
          simp at hcond
      obtain ⟨h1, h2, h3, h4, h5, h6, h7, -⟩ :=
        ffStep_core W H k u a e si nc s x y c rest hs hb hv
      have hiWH : idxOf W x y < W * H := idxOf_lt W H x y hb
      have hxmod : ((idxOf W x y % W : Nat) : Int) = x := idxOf_mod W H x y hb
      have hydiv : ((idxOf W x y / W : Nat) : Int) = y := idxOf_div W H x y hb
      obtain ⟨hx0, hxW, hy0, hyH⟩ := (inBoundsB_iff W H x y).mp hb
      have hmaskF : s.bigMask.getD (idxOf W x y) false = false := by
        cases hmf : s.bigMask.getD (idxOf W x y) false
        · rfl
        · have := inv.hmv _ hmf
          rw [hv] at this
          simp at this
      refine ⟨?_, ?_, ?_, ?_, ?_, ?_⟩
      · rw [h1, List.length_set]
        exact inv.hvl
      · rw [h2, List.length_set]
        exact inv.hml
      · intro j hj
        rw [h1]
        rw [h2] at hj
        rcases eq_or_ne (idxOf W x y) j with rfl | hne
        · exact getD_set_self _ _ _ (by rw [inv.hvl]; exact hiWH)
        · rw [getD_set_ne _ _ _ _ hne] at hj
          exact getD_set_true_mono _ _ _ (inv.hmv j hj)
      · rw [h3, h2]
        rw [trueCount_set_true _ _ (by rw [inv.hml]; exact hiWH) hmaskF, inv.hsz]
      · intro j hj
        rw [h2] at hj
        rw [h4, h5, h6, h7]
        rcases eq_or_ne (idxOf W x y) j with rfl | hne
        · rw [hxmod, hydiv]
          exact ⟨hiWH, min_le_right _ _, le_max_right _ _, min_le_right _ _, le_max_right _ _⟩
        · rw [getD_set_ne _ _ _ _ hne] at hj
          obtain ⟨b0, b1, b2, b3, b4⟩ := inv.hbox j hj
          exact ⟨b0, le_trans (min_le_left _ _) b1, le_trans b2 (le_max_left _ _),
            le_trans (min_le_left _ _) b3, le_trans b4 (le_max_left _ _)⟩
      · right
        have hmself : (ffStep W H k u a e si nc s).bigMask.getD (idxOf W x y) false = true := by
          rw [h2]
          exact getD_set_self _ _ _ (by rw [inv.hml]; exact hiWH)
        rcases inv.hach with ⟨-, hxi, hxa, hyi, hya⟩ | ⟨⟨j1, hj1, e1⟩, ⟨j2, hj2, e2⟩,
            ⟨j3, hj3, e3⟩, ⟨j4, hj4, e4⟩⟩
        · refine ⟨⟨idxOf W x y, hmself, ?_⟩, ⟨idxOf W x y, hmself, ?_⟩,
            ⟨idxOf W x y, hmself, ?_⟩, ⟨idxOf W x y, hmself, ?_⟩⟩
          · rw [hxmod, h4, hxi, min_eq_right (le_of_lt hxW)]
          · rw [hxmod, h5, hxa, max_eq_right hx0]
          · rw [hydiv, h6, hyi, min_eq_right (le_of_lt hyH)]
          · rw [hydiv, h7, hya, max_eq_right hy0]
        · have hm1 : (ffStep W H k u a e si nc s).bigMask.getD j1 false = true := by
            rw [h2]; exact getD_set_true_mono _ _ _ hj1
          have hm2 : (ffStep W H k u a e si nc s).bigMask.getD j2 false = true := by
            rw [h2]; exact getD_set_true_mono _ _ _ hj2
          have hm3 : (ffStep W H k u a e si nc s).bigMask.getD j3 false = true := by
            rw [h2]; exact getD_set_true_mono _ _ _ hj3
          have hm4 : (ffStep W H k u a e si nc s).bigMask.getD j4 false = true := by
            rw [h2]; exact getD_set_true_mono _ _ _ hj4
          refine ⟨?_, ?_, ?_, ?_⟩
          · rcases le_total s.xmin x with hle | hge
            · exact ⟨j1, hm1, by rw [e1, h4, min_eq_left hle]⟩
            · exact ⟨idxOf W x y, hmself, by rw [hxmod, h4, min_eq_right hge]⟩
          · rcases le_total s.xmax x with hle | hge
            · exact ⟨idxOf W x y, hmself, by rw [hxmod, h5, max_eq_right hle]⟩
            · exact ⟨j2, hm2, by rw [e2, h5, max_eq_left hge]⟩
          · rcases le_total s.ymin y with hle | hge
            · exact ⟨j3, hm3, by rw [e3, h6, min_eq_left hle]⟩
            · exact ⟨idxOf W x y, hmself, by rw [hydiv, h6, min_eq_right hge]⟩
          · rcases le_total s.ymax y with hle | hge
            · exact ⟨idxOf W x y, hmself, by rw [hydiv, h7, max_eq_right hle]⟩
            · exact ⟨j4, hm4, by rw [e4, h7, max_eq_left hge]⟩

theorem floodSteps_fillInv (W H : Nat) (k : ℚ) (u a e : Bool) (si : Nat) (nc : Color)
    (n : Nat) (s : FFState) (inv : FillInv W H s) :
    FillInv W H (floodSteps W H k u a e si nc n s) := by
  induction n generalizing s with
  | zero => exact inv
  | succ n ih =>
    rw [floodSteps]
    exact ih _ (ffStep_fillInv W H k u a e si nc s inv)

/-- Claim C5 (amended): for a flood fill started as the scan starts it
(fresh scratch mask, bounds initialized to `width, 0, height, 0`, the seed
in bounds and unvisited), the resulting bounding box is the tight
axis-aligned box of the pixels the fill marked in the scratch mask — every
marked pixel lies inside the box and each of the four bounds is attained
by a marked pixel.  These marked pixels are the *visited* pixels of the
region, a superset of the recolored ones.  The reported size equals the
number of marked pixels and satisfies
`size ≤ (xMax-xMin+1)*(yMax-yMin+1)`. -/
theorem floodFill_box_tight (W H : Nat) (k : ℚ) (u a e : Bool) (si : Nat) (nc : Color)
    (img : List Color) (vis : List Bool) (x y : Int) (c : Color) (s1 : FFState)
    (hlen : vis.length = W * H)
    (hb : inBoundsB W H x y = true)
    (hv : vis.getD (idxOf W x y) false = false)
    (hs1 : s1 = floodFillIterative W H k u a e si nc
      ⟨img, vis, List.replicate (W * H) false, List.replicate (W * H) false,
        (W : Int), 0, (H : Int), 0, 0, [(x, y, c)]⟩) :
    (∀ j, s1.bigMask.getD j false = true →
      s1.xmin ≤ ((j % W : Nat) : Int) ∧ ((j % W : Nat) : Int) ≤ s1.xmax ∧
        s1.ymin ≤ ((j / W : Nat) : Int) ∧ ((j / W : Nat) : Int) ≤ s1.ymax) ∧
    (∃ j, s1.bigMask.getD j false = true ∧ ((j % W : Nat) : Int) = s1.xmin) ∧
    (∃ j, s1.bigMask.getD j false = true ∧ ((j % W : Nat) : Int) = s1.xmax) ∧
    (∃ j, s1.bigMask.getD j false = true ∧ ((j / W : Nat) : Int) = s1.ymin) ∧
    (∃ j, s1.bigMask.getD j false = true ∧ ((j / W : Nat) : Int) = s1.ymax) ∧
    s1.size = trueCount s1.bigMask ∧
    (s1.size : Int) ≤ (s1.xmax - s1.xmin + 1) * (s1.ymax - s1.ymin + 1) := by
  subst hs1
  rw [floodFillIterative]
  set s0 : FFState := ⟨img, vis, List.replicate (W * H) false, List.replicate (W * H) false,
    (W : Int), 0, (H : Int), 0, 0, [(x, y, c)]⟩ with hs0
  set sF := floodSteps W H k u a e si nc (ffMeasure s0) s0 with hsF
  have inv0 : FillInv W H s0 := by
    refine ⟨hlen, by simp, ?_, (trueCount_replicate_false _).symm, ?_,
      Or.inl ⟨rfl, rfl, rfl, rfl, rfl⟩⟩
    · intro j hj
      rw [hs0] at hj
      simp only at hj
      rw [getD_replicate_false] at hj
      simp at hj
    · intro j hj
      rw [hs0] at hj
      simp only at hj
      rw [getD_replicate_false] at hj
      simp at hj
  have inv1 : FillInv W H sF := floodSteps_fillInv W H k u a e si nc (ffMeasure s0) s0 inv0
  obtain ⟨hvl, hml, hmv, hsz, hbox, hach⟩ := inv1
  have hmask : sF.bigMask.getD (idxOf W x y) false = true := by
    have hm : ffMeasure s0 = 9 * falseCount vis + 1 := by
      rw [ffMeasure]
      simp [hs0]
      omega
    rw [hsF, hm]
    exact floodSteps_top_masked W H k u a e si nc _ s0 x y c [] rfl hb hv (by simp [hs0])
  have hsize_pos : sF.size ≠ 0 := by
    have := trueCount_pos_of_getD sF.bigMask (idxOf W x y) hmask
    omega
  rcases hach with ⟨h0, -⟩ | ⟨ex1, ex2, ex3, ex4⟩
  · exact absurd h0 hsize_pos
  refine ⟨fun j hj => (hbox j hj).2, ex1, ex2, ex3, ex4, hsz, ?_⟩
  obtain ⟨j1, hj1, e1⟩ := ex1
  obtain ⟨j2, hj2, e2⟩ := ex2
  obtain ⟨j3, hj3, e3⟩ := ex3
  obtain ⟨j4, hj4, e4⟩ := ex4
  have hxmin0 : 0 ≤ sF.xmin := by
    rw [← e1]
    positivity
  have hymin0 : 0 ≤ sF.ymin := by
    rw [← e3]
    positivity
  have hxmm : sF.xmin ≤ sF.xmax := by
    rw [← e2]
    exact (hbox j2 hj2).2.1
  have hymm : sF.ymin ≤ sF.ymax := by
    rw [← e4]
    exact (hbox j4 hj4).2.2.2.1
  have hboxN : ∀ j, sF.bigMask.getD j false = true →
      j < W * H ∧ sF.xmin.toNat ≤ j % W ∧ j % W ≤ sF.xmax.toNat ∧
        sF.ymin.toNat ≤ j / W ∧ j / W ≤ sF.ymax.toNat := by
    intro j hj
    obtain ⟨b0, b1, b2, b3, b4⟩ := hbox j hj
    refine ⟨b0, ?_, ?_, ?_, ?_⟩ <;> omega
  have hcount := trueCount_le_box W H sF.bigMask sF.xmin.toNat sF.xmax.toNat
    sF.ymin.toNat sF.ymax.toNat hboxN
  have e5 : sF.xmax - sF.xmin + 1 = ((sF.xmax.toNat - sF.xmin.toNat + 1 : Nat) : Int) := by
    omega
  have e6 : sF.ymax - sF.ymin + 1 = ((sF.ymax.toNat - sF.ymin.toNat + 1 : Nat) : Int) := by
    omega
  calc (sF.size : Int)
      ≤ (((sF.ymax.toNat - sF.ymin.toNat + 1) * (sF.xmax.toNat - sF.xmin.toNat + 1) : Nat) : Int)
        := by
          rw [hsz]
          exact_mod_cast hcount
    _ = (sF.xmax - sF.xmin + 1) * (sF.ymax - sF.ymin + 1) := by
          rw [Nat.cast_mul, ← e5, ← e6]
          ring

/-- Witness for `floodFill_box_tight`: the 2×1 example fill from seed
`(0,0)`; the theorem yields a marked pixel attaining `xmin`. -/
theorem floodFill_box_tight_witness :
    (([false, false] : List Bool).length = 2 * 1 ∧
      inBoundsB 2 1 0 0 = true ∧
      ([false, false] : List Bool).getD (idxOf 2 0 0) false = false) ∧
    ∃ j, (floodFillIterative 2 1 2 false true false 0 ⟨200, 200, 200⟩
        ⟨exImage2, [false, false], List.replicate (2 * 1) false, List.replicate (2 * 1) false,
          ((2 : Nat) : Int), 0, ((1 : Nat) : Int), 0, 0,
          [(0, 0, ⟨10, 10, 10⟩)]⟩).bigMask.getD j false = true ∧
      ((j % 2 : Nat) : Int)
        = (floodFillIterative 2 1 2 false true false 0 ⟨200, 200, 200⟩
            ⟨exImage2, [false, false], List.replicate (2 * 1) false,
              List.replicate (2 * 1) false, ((2 : Nat) : Int), 0, ((1 : Nat) : Int), 0, 0,
              [(0, 0, ⟨10, 10, 10⟩)]⟩).xmin :=
  ⟨⟨by decide, by decide, by decide⟩,
    (floodFill_box_tight 2 1 2 false true false 0 ⟨200, 200, 200⟩ exImage2 [false, false]
      0 0 ⟨10, 10, 10⟩ _ (by decide) (by decide) (by decide) rfl).2.1⟩

end Past2Polygon
